import Mathlib

/-!
Verification development for the Gmail fetch script (`gmail_api.py`).

The core of the program is embedded shallowly:

* `decode_body` — URL-safe base64 + UTF-8 decoding followed by the inline
  normalization pipeline (source lines 48–63);
* `extract_text_from_parts` — recursive plain-text assembly over the MIME
  part tree (source lines 65–79);
* `extract_attachments` / `save_attachment` — attachment identification and
  materialization (source lines 118–137, 153–163);
* `process_email` — the per-message record builder (source lines 81–116).

External collaborators (the Gmail service, `dateutil.parser.parse`, the
filesystem) are passed in as explicit oracle functions.  Python exceptions
that escape a function are modelled with `Except Unit`; exceptions that the
source catches locally are collapsed into the value the handler produces.
Machine-level concerns: bytes are `Nat` values below 256, and Python `str`
values are Lean `String`s.
-/

namespace GmailFetch

/-- Python `Py_UNICODE_ISSPACE`: the predicate behind both `str.strip` and
`\s` in `re` patterns over `str`.  Matches the CPython whitespace table. -/
def pyIsSpace (c : Char) : Bool :=
  let n := c.toNat
  (9 ≤ n ∧ n ≤ 13) ∨ (28 ≤ n ∧ n ≤ 31) ∨ n = 32 ∨ n = 133 ∨ n = 160 ∨
  n = 5760 ∨ (8192 ≤ n ∧ n ≤ 8202) ∨ n = 8232 ∨ n = 8233 ∨ n = 8239 ∨
  n = 8287 ∨ n = 12288

/-- The Unicode decimal-digit class (category Nd), as matched by `\d` in
`re` patterns over `str` — the source's `re.sub(r'^\d+\s+', ...)`.  The
ranges are the complete Nd table of the CPython Unicode database. -/
def pyIsDigit (c : Char) : Bool :=
  let n := c.toNat
  (0x30 ≤ n ∧ n ≤ 0x39 : Bool) || (0x660 ≤ n ∧ n ≤ 0x669 : Bool) ||
  (0x6f0 ≤ n ∧ n ≤ 0x6f9 : Bool) || (0x7c0 ≤ n ∧ n ≤ 0x7c9 : Bool) ||
  (0x966 ≤ n ∧ n ≤ 0x96f : Bool) || (0x9e6 ≤ n ∧ n ≤ 0x9ef : Bool) ||
  (0xa66 ≤ n ∧ n ≤ 0xa6f : Bool) || (0xae6 ≤ n ∧ n ≤ 0xaef : Bool) ||
  (0xb66 ≤ n ∧ n ≤ 0xb6f : Bool) || (0xbe6 ≤ n ∧ n ≤ 0xbef : Bool) ||
  (0xc66 ≤ n ∧ n ≤ 0xc6f : Bool) || (0xce6 ≤ n ∧ n ≤ 0xcef : Bool) ||
  (0xd66 ≤ n ∧ n ≤ 0xd6f : Bool) || (0xde6 ≤ n ∧ n ≤ 0xdef : Bool) ||
  (0xe50 ≤ n ∧ n ≤ 0xe59 : Bool) || (0xed0 ≤ n ∧ n ≤ 0xed9 : Bool) ||
  (0xf20 ≤ n ∧ n ≤ 0xf29 : Bool) || (0x1040 ≤ n ∧ n ≤ 0x1049 : Bool) ||
  (0x1090 ≤ n ∧ n ≤ 0x1099 : Bool) || (0x17e0 ≤ n ∧ n ≤ 0x17e9 : Bool) ||
  (0x1810 ≤ n ∧ n ≤ 0x1819 : Bool) || (0x1946 ≤ n ∧ n ≤ 0x194f : Bool) ||
  (0x19d0 ≤ n ∧ n ≤ 0x19d9 : Bool) || (0x1a80 ≤ n ∧ n ≤ 0x1a89 : Bool) ||
  (0x1a90 ≤ n ∧ n ≤ 0x1a99 : Bool) || (0x1b50 ≤ n ∧ n ≤ 0x1b59 : Bool) ||
  (0x1bb0 ≤ n ∧ n ≤ 0x1bb9 : Bool) || (0x1c40 ≤ n ∧ n ≤ 0x1c49 : Bool) ||
  (0x1c50 ≤ n ∧ n ≤ 0x1c59 : Bool) || (0xa620 ≤ n ∧ n ≤ 0xa629 : Bool) ||
  (0xa8d0 ≤ n ∧ n ≤ 0xa8d9 : Bool) || (0xa900 ≤ n ∧ n ≤ 0xa909 : Bool) ||
  (0xa9d0 ≤ n ∧ n ≤ 0xa9d9 : Bool) || (0xa9f0 ≤ n ∧ n ≤ 0xa9f9 : Bool) ||
  (0xaa50 ≤ n ∧ n ≤ 0xaa59 : Bool) || (0xabf0 ≤ n ∧ n ≤ 0xabf9 : Bool) ||
  (0xff10 ≤ n ∧ n ≤ 0xff19 : Bool) || (0x104a0 ≤ n ∧ n ≤ 0x104a9 : Bool) ||
  (0x10d30 ≤ n ∧ n ≤ 0x10d39 : Bool) || (0x11066 ≤ n ∧ n ≤ 0x1106f : Bool) ||
  (0x110f0 ≤ n ∧ n ≤ 0x110f9 : Bool) || (0x11136 ≤ n ∧ n ≤ 0x1113f : Bool) ||
  (0x111d0 ≤ n ∧ n ≤ 0x111d9 : Bool) || (0x112f0 ≤ n ∧ n ≤ 0x112f9 : Bool) ||
  (0x11450 ≤ n ∧ n ≤ 0x11459 : Bool) || (0x114d0 ≤ n ∧ n ≤ 0x114d9 : Bool) ||
  (0x11650 ≤ n ∧ n ≤ 0x11659 : Bool) || (0x116c0 ≤ n ∧ n ≤ 0x116c9 : Bool) ||
  (0x11730 ≤ n ∧ n ≤ 0x11739 : Bool) || (0x118e0 ≤ n ∧ n ≤ 0x118e9 : Bool) ||
  (0x11950 ≤ n ∧ n ≤ 0x11959 : Bool) || (0x11c50 ≤ n ∧ n ≤ 0x11c59 : Bool) ||
  (0x11d50 ≤ n ∧ n ≤ 0x11d59 : Bool) || (0x11da0 ≤ n ∧ n ≤ 0x11da9 : Bool) ||
  (0x16a60 ≤ n ∧ n ≤ 0x16a69 : Bool) || (0x16ac0 ≤ n ∧ n ≤ 0x16ac9 : Bool) ||
  (0x16b50 ≤ n ∧ n ≤ 0x16b59 : Bool) || (0x1d7ce ≤ n ∧ n ≤ 0x1d7ff : Bool) ||
  (0x1e140 ≤ n ∧ n ≤ 0x1e149 : Bool) || (0x1e2f0 ≤ n ∧ n ≤ 0x1e2f9 : Bool) ||
  (0x1e950 ≤ n ∧ n ≤ 0x1e959 : Bool) || (0x1fbf0 ≤ n ∧ n ≤ 0x1fbf9 : Bool)

/-- ASCII lowercasing, modelling Python `str.lower` on header names (header
names are ASCII). -/
def asciiLower (c : Char) : Char :=
  if 65 ≤ c.toNat ∧ c.toNat ≤ 90 then Char.ofNat (c.toNat + 32) else c

/-- Python `str.lower` on a whole string (ASCII model). -/
def pyLower (s : String) : String :=
  String.mk (s.data.map asciiLower)

/-- Value of one base64 alphabet character.  `urlsafe_b64decode` translates
`-` to `+` and `_` to `/` before decoding, so both alphabets are accepted. -/
def b64val (c : Char) : Option Nat :=
  if 'A' ≤ c ∧ c ≤ 'Z' then some (c.toNat - 65)
  else if 'a' ≤ c ∧ c ≤ 'z' then some (c.toNat - 97 + 26)
  else if '0' ≤ c ∧ c ≤ '9' then some (c.toNat - 48 + 52)
  else if c = '+' ∨ c = '-' then some 62
  else if c = '/' ∨ c = '_' then some 63
  else none

/-- Core loop of CPython's `binascii.a2b_base64` in non-strict mode, as called
by `base64.urlsafe_b64decode`: characters outside the alphabet are skipped,
`=` is only significant once a quad has at least two data characters, a
complete pad sequence ends decoding, and a quad left with 1 data character or
ending with 2–3 unpadded data characters raises `binascii.Error` (`none`).
Arguments: remaining characters, position in the current quad (0–3), bits
carried from the previous character, count of pad characters seen. -/
def b64loop : List Char → Nat → Nat → Nat → Option (List Nat)
  | [], quadPos, _, _ => if quadPos = 0 then some [] else none
  | c :: rest, quadPos, left, pads =>
    if c = '=' then
      if 2 ≤ quadPos then
        if 4 ≤ quadPos + (pads + 1) then some []
        else b64loop rest quadPos left (pads + 1)
      else b64loop rest quadPos left pads
    else
      match b64val c with
      | none => b64loop rest quadPos left pads
      | some v =>
        match quadPos with
        | 0 => b64loop rest 1 v 0
        | 1 => (b64loop rest 2 (v % 16) 0).map (fun bs => (left * 4 + v / 16) :: bs)
        | 2 => (b64loop rest 3 (v % 4) 0).map (fun bs => (left * 16 + v / 4) :: bs)
        | _ => (b64loop rest 0 0 0).map (fun bs => (left * 64 + v) :: bs)

/-- `base64.urlsafe_b64decode` on an ASCII string: `none` models the
`binascii.Error` the source catches. -/
def urlsafeB64decode (s : List Char) : Option (List Nat) :=
  b64loop s 0 0 0

/-- `True` iff `b` is a UTF-8 continuation byte. -/
def utf8Cont (b : Nat) : Bool :=
  (128 ≤ b ∧ b ≤ 191 : Bool)

/-- Strict UTF-8 decoding of a byte list, as `bytes.decode('UTF-8')`:
rejects overlong forms, surrogates, and code points above `0x10FFFF`.
`none` models the `UnicodeDecodeError` the source catches. -/
def utf8Decode : List Nat → Option (List Char)
  | [] => some []
  | b :: rest =>
    if b ≤ 127 then
      (utf8Decode rest).map (fun cs => Char.ofNat b :: cs)
    else if b ≤ 193 then none
    else if b ≤ 223 then
      match rest with
      | b2 :: rest2 =>
        if utf8Cont b2 then
          (utf8Decode rest2).map (fun cs => Char.ofNat ((b - 192) * 64 + (b2 - 128)) :: cs)
        else none
      | _ => none
    else if b ≤ 239 then
      match rest with
      | b2 :: b3 :: rest3 =>
        if utf8Cont b2 ∧ utf8Cont b3 ∧
            (b ≠ 224 ∨ 160 ≤ b2) ∧ (b ≠ 237 ∨ b2 ≤ 159) then
          (utf8Decode rest3).map
            (fun cs => Char.ofNat ((b - 224) * 4096 + (b2 - 128) * 64 + (b3 - 128)) :: cs)
        else none
      | _ => none
    else if b ≤ 244 then
      match rest with
      | b2 :: b3 :: b4 :: rest4 =>
        if utf8Cont b2 ∧ utf8Cont b3 ∧ utf8Cont b4 ∧
            (b ≠ 240 ∨ 144 ≤ b2) ∧ (b ≠ 244 ∨ b2 ≤ 143) then
          (utf8Decode rest4).map
            (fun cs => Char.ofNat
              ((b - 240) * 262144 + (b2 - 128) * 4096 + (b3 - 128) * 64 + (b4 - 128)) :: cs)
        else none
      | _ => none
    else none

/-- An ASCII decimal digit — the regex class `[0-9]` in `html`'s
character-reference pattern `&(#[0-9]+;?|#[xX][0-9a-fA-F]+;?|...)`. -/
def isAsciiDigit (c : Char) : Bool :=
  ('0' ≤ c ∧ c ≤ '9' : Bool)

/-- An ASCII hexadecimal digit — the regex class `[0-9a-fA-F]`. -/
def isAsciiHexDigit (c : Char) : Bool :=
  ('0' ≤ c ∧ c ≤ '9') ∨ ('a' ≤ c ∧ c ≤ 'f') ∨ ('A' ≤ c ∧ c ≤ 'F')

/-- Value of one hexadecimal digit. -/
def hexDigitVal (c : Char) : Nat :=
  if c ≤ '9' then c.toNat - 48 else if c ≤ 'F' then c.toNat - 55 else c.toNat - 87

/-- `int(ds, 10)` on a digit string. -/
def decValue (ds : List Char) : Nat :=
  ds.foldl (fun a c => a * 10 + (c.toNat - 48)) 0

/-- `int(ds, 16)` on a hex-digit string. -/
def hexValue (ds : List Char) : Nat :=
  ds.foldl (fun a c => a * 16 + hexDigitVal c) 0

/-- The `html._invalid_charrefs` table: numeric character references that
the HTML standard maps to replacement code points (U+0000, carriage return,
and the 0x80–0x9F block read as Windows-1252). -/
def invalidCharref (n : Nat) : Option Nat :=
  if n = 0 then some 0xFFFD
  else if n = 13 then some 0xD
  else if n = 128 then some 0x20AC
  else if n = 129 then some 0x81
  else if n = 130 then some 0x201A
  else if n = 131 then some 0x192
  else if n = 132 then some 0x201E
  else if n = 133 then some 0x2026
  else if n = 134 then some 0x2020
  else if n = 135 then some 0x2021
  else if n = 136 then some 0x2C6
  else if n = 137 then some 0x2030
  else if n = 138 then some 0x160
  else if n = 139 then some 0x2039
  else if n = 140 then some 0x152
  else if n = 141 then some 0x8D
  else if n = 142 then some 0x17D
  else if n = 143 then some 0x8F
  else if n = 144 then some 0x90
  else if n = 145 then some 0x2018
  else if n = 146 then some 0x2019
  else if n = 147 then some 0x201C
  else if n = 148 then some 0x201D
  else if n = 149 then some 0x2022
  else if n = 150 then some 0x2013
  else if n = 151 then some 0x2014
  else if n = 152 then some 0x2DC
  else if n = 153 then some 0x2122
  else if n = 154 then some 0x161
  else if n = 155 then some 0x203A
  else if n = 156 then some 0x153
  else if n = 157 then some 0x9D
  else if n = 158 then some 0x17E
  else if n = 159 then some 0x178
  else none

/-- The `html._invalid_codepoints` set: C0/C1 control characters (minus the
ones the charref table already rewrites) and the Unicode noncharacters;
their numeric references produce the empty string. -/
def invalidCodepoint (n : Nat) : Bool :=
  (1 ≤ n ∧ n ≤ 8) ∨ n = 11 ∨ (14 ≤ n ∧ n ≤ 31) ∨ (127 ≤ n ∧ n ≤ 159) ∨
  (0xFDD0 ≤ n ∧ n ≤ 0xFDEF) ∨
  ((n % 0x10000 = 0xFFFE ∨ n % 0x10000 = 0xFFFF) ∧ n ≤ 0x10FFFF)

/-- `html._replace_charref` on a numeric reference of value `num`: the
invalid-charref table first, then surrogates and out-of-range values to
U+FFFD, then the invalid code points to the empty string, else `chr(num)`. -/
def numRefOut (num : Nat) : List Char :=
  match invalidCharref num with
  | some m => [Char.ofNat m]
  | none =>
    if (0xD800 ≤ num ∧ num ≤ 0xDFFF) ∨ 0x10FFFF < num then [Char.ofNat 0xFFFD]
    else if invalidCodepoint num then []
    else [Char.ofNat num]

/-- Drop one optional trailing-position `;` — the `;?` of the reference
regex. -/
def dropSemi : List Char → List Char
  | ';' :: rest => rest
  | l => l

/-- Recognize one character reference right after a `&`: the numeric forms
`#[0-9]+;?` and `#[xX][0-9a-fA-F]+;?` exactly as `html.unescape` resolves
them, plus the five core named references (with semicolon).  Returns the
replacement text and the remaining input, or `none` when no reference is
recognized (the `&` then stays verbatim).  Named references outside these
five — the rest of the HTML5 table and the semicolon-less legacy forms —
are not consumed, so on such inputs the result keeps a literal `&`; every
value-exactness theorem below therefore carries an ampersand-free
hypothesis confining it to the fragment where this model is exact. -/
def parseCharref : List Char → Option (List Char × List Char)
  | '#' :: 'x' :: rest =>
    let ds := rest.takeWhile isAsciiHexDigit
    if ds.isEmpty then none
    else some (numRefOut (hexValue ds), dropSemi (rest.dropWhile isAsciiHexDigit))
  | '#' :: 'X' :: rest =>
    let ds := rest.takeWhile isAsciiHexDigit
    if ds.isEmpty then none
    else some (numRefOut (hexValue ds), dropSemi (rest.dropWhile isAsciiHexDigit))
  | '#' :: rest =>
    let ds := rest.takeWhile isAsciiDigit
    if ds.isEmpty then none
    else some (numRefOut (decValue ds), dropSemi (rest.dropWhile isAsciiDigit))
  | 'a' :: 'm' :: 'p' :: ';' :: rest => some (['&'], rest)
  | 'l' :: 't' :: ';' :: rest => some (['<'], rest)
  | 'g' :: 't' :: ';' :: rest => some (['>'], rest)
  | 'q' :: 'u' :: 'o' :: 't' :: ';' :: rest => some (['"'], rest)
  | 'a' :: 'p' :: 'o' :: 's' :: ';' :: rest => some (['\''], rest)
  | _ => none

/-- Left-to-right scan of `html.unescape`: at a `&`, substitute the
reference `parseCharref` recognizes and resume after it, otherwise copy the
`&`; every other character is copied.  The fuel argument (instantiated with
the input length, which bounds the scan) makes the recursion structural. -/
def htmlUnescapeGo : Nat → List Char → List Char
  | 0, l => l
  | _ + 1, [] => []
  | fuel + 1, '&' :: rest =>
    match parseCharref rest with
    | some (out, rest2) => out ++ htmlUnescapeGo fuel rest2
    | none => '&' :: htmlUnescapeGo fuel rest
  | fuel + 1, c :: rest => c :: htmlUnescapeGo fuel rest

/-- `html.unescape` from the Python standard library (rule 1 of the
source's normalization pipeline): a string without `&` is returned
unchanged (the fast path), otherwise each recognized character reference
is replaced left to right. -/
def htmlUnescape (l : List Char) : List Char :=
  htmlUnescapeGo l.length l

/-- `re.sub(r'\r\n|\r|\n', '\n', text)` — rule 2: normalize line endings. -/
def normNewlines : List Char → List Char
  | [] => []
  | '\r' :: '\n' :: rest => '\n' :: normNewlines rest
  | '\r' :: rest => '\n' :: normNewlines rest
  | c :: rest => c :: normNewlines rest

mutual

/-- `re.sub(r'\n\s*\n', '\n\n', text)` — rule 3: collapse blank runs.  The
regex scans left to right; at a `\n` whose following whitespace run contains
another `\n`, the greedy match extends to the last `\n` of the run, the match
is replaced by two newlines, and scanning resumes after that last `\n`. -/
def collapseBlank : List Char → List Char
  | [] => []
  | c :: rest => if c = '\n' then collapseBlankRun rest false [] else c :: collapseBlank rest

/-- State while scanning the whitespace run after a `\n`: `nl2` records
whether a further `\n` has been seen in the run, `pending` holds the
whitespace read since the last `\n` (kept verbatim when the run ends). -/
def collapseBlankRun : List Char → Bool → List Char → List Char
  | [], nl2, pending => '\n' :: (if nl2 then '\n' :: pending else pending)
  | c :: rest, nl2, pending =>
    if c = '\n' then collapseBlankRun rest true []
    else if pyIsSpace c then collapseBlankRun rest nl2 (pending ++ [c])
    else ('\n' :: (if nl2 then '\n' :: pending else pending)) ++ c :: collapseBlank rest

end

/-- Python `str.strip()` — rule 4: drop leading and trailing whitespace. -/
def pyStrip (l : List Char) : List Char :=
  ((l.dropWhile pyIsSpace).reverse.dropWhile pyIsSpace).reverse

/-- `str.strip()` on strings. -/
def pyStripS (s : String) : String :=
  String.mk (pyStrip s.data)

/-- `re.sub(r' {2,}', ' ', text)` — rule 5: every maximal run of two or more
spaces becomes a single space.  `inRun` records that the previous character
was a space already emitted. -/
def collapseSpacesGo : Bool → List Char → List Char
  | _, [] => []
  | inRun, c :: rest =>
    if c = ' ' then
      if inRun then collapseSpacesGo true rest else ' ' :: collapseSpacesGo true rest
    else c :: collapseSpacesGo false rest

/-- Rule 5 entry point. -/
def collapseSpaces (l : List Char) : List Char :=
  collapseSpacesGo false l

/-- Whether `re.sub(r'^\d+\s+', '', text)` matches at the start of `l`. -/
def digitHeaderStart (l : List Char) : Bool :=
  decide (l.takeWhile pyIsDigit ≠ []) && decide ((l.dropWhile pyIsDigit).takeWhile pyIsSpace ≠ [])

/-- `re.sub(r'^\d+\s+', '', text)` — rule 6: strip one leading run of digits
followed by whitespace.  Anchored, so it fires at most once per pass. -/
def stripLeadingDigits (l : List Char) : List Char :=
  if digitHeaderStart l then (l.dropWhile pyIsDigit).dropWhile pyIsSpace else l

mutual

/-- Verification invariant for rule 3 (not part of the source): `true` iff
the regex `\n\s*\n` has no occurrence other than an exact `\n\n`, i.e. rule
3 leaves the string unchanged.  Base state: no newline context. -/
def noBlank : List Char → Bool
  | [] => true
  | c :: rest => if c = '\n' then noBlankNl rest else noBlank rest

/-- `noBlank` state after a single `\n`: one more adjacent `\n` is allowed,
after which (or after any further whitespace) the run must not contain
another `\n`. -/
def noBlankNl : List Char → Bool
  | [] => true
  | c :: rest =>
    if c = '\n' then noBlankStrict rest
    else if pyIsSpace c then noBlankStrict rest
    else noBlank rest

/-- `noBlank` state inside a whitespace run where any further `\n` would be
collapsed by rule 3. -/
def noBlankStrict : List Char → Bool
  | [] => true
  | c :: rest =>
    if c = '\n' then false
    else if pyIsSpace c then noBlankStrict rest
    else noBlank rest

end

mutual

/-- Verification invariant for rule 5 (not part of the source): `true` iff
the string has no two adjacent spaces, i.e. rule 5 leaves it unchanged. -/
def noTwoSp : List Char → Bool
  | [] => true
  | c :: rest => if c = ' ' then noTwoSpSp rest else noTwoSp rest

/-- `noTwoSp` state right after a space. -/
def noTwoSpSp : List Char → Bool
  | [] => true
  | c :: rest => if c = ' ' then false else noTwoSp rest

end

/-- Verification invariant for rule 4 (not part of the source): neither end
of the string carries whitespace, i.e. `strip` leaves it unchanged. -/
def noWsEnds (l : List Char) : Bool :=
  (match l.head? with
   | some h => !pyIsSpace h
   | none => true) &&
  (match l.getLast? with
   | some h => !pyIsSpace h
   | none => true)

/-- The normalization pipeline applied by `decode_body` after a successful
decode (source lines 57–62), rules in source order. -/
def normalizeBody (s : String) : String :=
  String.mk (stripLeadingDigits (collapseSpaces (pyStrip
    (collapseBlank (normNewlines (htmlUnescape s.data))))))

/-- The raw decoding half of `decode_body`: URL-safe base64 then UTF-8.
`none` models the two exception types the source catches. -/
def decodeRaw (data : String) : Option String :=
  (urlsafeB64decode data.data).bind (fun bs => (utf8Decode bs).map String.mk)

/-- `decode_body` (source lines 48–63).  An empty (or absent) blob yields
`""`; `binascii.Error` and `UnicodeDecodeError` are caught and yield `""`;
on success the decoded text is run through the normalization pipeline.
A blob containing a non-ASCII character makes `str.encode('ascii')` inside
`urlsafe_b64decode` raise `UnicodeEncodeError`, which the `except` clause
does not list, so the exception escapes (`Except.error`). -/
def decode_body (data : String) : Except Unit String :=
  if data = "" then .ok ""
  else if data.data.any (fun c => 128 ≤ c.toNat) then .error ()
  else
    match decodeRaw data with
    | none => .ok ""
    | some t => .ok (normalizeBody t)

/-- The `body` dictionary of a MIME part: the optional fields the source
reads from it (`data`, `attachmentId`, `size`); `none` models an absent
key.  `size` defaults to `0` via `body.get('size', 0)`. -/
structure Body where
  data : Option String
  attachmentId : Option String
  size : Option Nat
deriving Repr, DecidableEq

mutual

/-- One node of the message part tree, with exactly the optional dictionary
keys the source reads: `mimeType`, `body`, `parts`, `filename`. -/
inductive Part : Type where
  | mk (mimeType : Option String) (body : Option Body)
       (parts : Option PartList) (filename : Option String) : Part

/-- An ordered sequence of parts (the value of a `parts` key). -/
inductive PartList : Type where
  | nil : PartList
  | cons : Part → PartList → PartList

end

/-- `mimeType` accessor. -/
def Part.mimeType : Part → Option String
  | .mk mt _ _ _ => mt

/-- `body` accessor. -/
def Part.body : Part → Option Body
  | .mk _ b _ _ => b

/-- `parts` accessor. -/
def Part.parts : Part → Option PartList
  | .mk _ _ ps _ => ps

/-- `filename` accessor. -/
def Part.filename : Part → Option String
  | .mk _ _ _ fn => fn

mutual

/-- `extract_text_from_parts` (source lines 65–79).  For each part in order:
if `part['body']['data']` is present the part contributes its decoded body
when its mime type is exactly `text/plain` and the decoded text is non-empty
(plus a trailing newline); otherwise, if `parts` is present, the function
recurses (`continue` skips the mime check); otherwise the part contributes
nothing.  A `decode_body` exception escapes the whole call. -/
def extract_text_from_parts : PartList → Except Unit String
  | .nil => .ok ""
  | .cons p rest => do
    let c ← extract_text_part p
    let r ← extract_text_from_parts rest
    .ok (c ++ r)

/-- Contribution of a single part to `extract_text_from_parts` (the body of
the source's `for` loop for one iteration). -/
def extract_text_part : Part → Except Unit String
  | .mk mimeType body parts _ =>
    match body.bind Body.data with
    | some d => do
      let bodyData ← decode_body d
      .ok (if mimeType.getD "" = "text/plain" ∧ bodyData ≠ "" then bodyData ++ "\n" else "")
    | none =>
      match parts with
      | some pl => extract_text_from_parts pl
      | none => .ok ""

end

/-- One row of the attachments table (source lines 129–134). -/
structure AttachmentRecord where
  email_id : String
  filename : String
  mime_type : String
  size : Nat
deriving Repr, DecidableEq

/-- `save_attachment` (source lines 153–163), reduced to its observable
effect: the log line it emits.  The write itself is the `saveOk` oracle
(open/write success); both outcomes are caught inside the function, which
logs `Saved attachment: ...` on success and `Error saving attachment ...`
(with the exception text, elided here) on failure and never raises. -/
def save_attachment (saveOk : String → List Nat → Bool)
    (filename : String) (data : List Nat) : List String :=
  if saveOk filename data then ["Saved attachment: " ++ filename]
  else ["Error saving attachment " ++ filename]

/-- The `if attachment_data:` block of `extract_attachments` (source lines
127–134) applied to one downloaded result: only when the data is truthy
(non-`None` and non-empty) is it saved and a record built — and the record
is built whether or not the save succeeded. -/
def materialize_attachment (saveOk : String → List Nat → Bool)
    (email_id fn mime : String) (size : Nat) :
    Option (List Nat) → List AttachmentRecord × List String
  | some bs =>
    if bs ≠ [] then
      ([{ email_id := email_id, filename := fn, mime_type := mime, size := size }],
       save_attachment saveOk fn bs)
    else ([], [])
  | none => ([], [])

mutual

/-- `extract_attachments` (source lines 118–137).  `download` is the oracle
for `download_attachment`: `none` models any exception during the fetch or
the base64 decode of the attachment (all caught inside `download_attachment`,
which logs and returns `None`); `some bs` is the decoded byte string, which
may be empty.  A part is considered when it has a non-empty `filename` and
its `body` has an `attachmentId`; otherwise, if the part has `parts`, the
function recurses.  Returns the records together with the `save_attachment`
log lines (the download error log is not modelled). -/
def extract_attachments (download : String → String → Option (List Nat))
    (saveOk : String → List Nat → Bool) :
    PartList → String → List AttachmentRecord × List String
  | .nil, _ => ([], [])
  | .cons p rest, email_id =>
    let h := extract_attachments_part download saveOk p email_id
    let t := extract_attachments download saveOk rest email_id
    (h.1 ++ t.1, h.2 ++ t.2)

/-- Contribution of a single part to `extract_attachments` (one iteration of
the source's `for` loop). -/
def extract_attachments_part (download : String → String → Option (List Nat))
    (saveOk : String → List Nat → Bool) :
    Part → String → List AttachmentRecord × List String
  | .mk mimeType body parts filename, email_id =>
    let fn := filename.getD ""
    match body.bind Body.attachmentId with
    | some attachment_id =>
      if fn ≠ "" then
        materialize_attachment saveOk email_id fn (mimeType.getD "")
          ((body.bind Body.size).getD 0) (download email_id attachment_id)
      else
        match parts with
        | some pl => extract_attachments download saveOk pl email_id
        | none => ([], [])
    | none =>
      match parts with
      | some pl => extract_attachments download saveOk pl email_id
      | none => ([], [])

end

mutual

/-- Data-model invariant of §3 of the design, for one node: a node with
`parts` is a pure container — no `bodyData`, no attachment handle, no
filename.  Real Gmail payloads satisfy this. -/
def wellFormedPart : Part → Bool
  | .mk _ body parts filename =>
    match parts with
    | some pl =>
      (body.bind Body.data).isNone && (body.bind Body.attachmentId).isNone &&
      filename.getD "" = "" && wellFormed pl
    | none => true

/-- Data-model invariant of §3 over a part list. -/
def wellFormed : PartList → Bool
  | .nil => true
  | .cons p rest => wellFormedPart p && wellFormed rest

end

mutual

/-- Whether the blob this node offers to `extract_text_part` decodes without
an escaping exception (mirrors the traversal exactly). -/
def decodesCleanPart : Part → Bool
  | .mk _ body parts _ =>
    match body.bind Body.data with
    | some d => match decode_body d with | .ok _ => true | .error _ => false
    | none => match parts with | some pl => decodesClean pl | none => true

/-- Whether every blob that `extract_text_from_parts` will decode does so
without an escaping exception. -/
def decodesClean : PartList → Bool
  | .nil => true
  | .cons p rest => decodesCleanPart p && decodesClean rest

end

/-- `decode_body` with a caught-exception view: the text when decoding
succeeds, `""` when the call would raise.  Used only on the spec side; the
source-side embedding keeps the exception explicit. -/
def decodeBodyClean (d : String) : String :=
  match decode_body d with
  | .ok s => s
  | .error _ => ""

mutual

/-- Spec-side definition, following §4.3/§3 of the design: the
decoded-and-normalized texts of the `text/plain` leaves of the tree, in
document order, empty contributions dropped.  Compared against
`extract_text_from_parts` in the refinement theorem for the body assembly. -/
def specLeafTexts : PartList → List String
  | .nil => []
  | .cons p rest => specPartLeafTexts p ++ specLeafTexts rest

/-- Spec-side leaf texts of one node: containers descend, `text/plain`
leaves with non-empty content contribute their text, everything else
contributes nothing. -/
def specPartLeafTexts : Part → List String
  | .mk mimeType body parts _ =>
    match parts with
    | some pl => specLeafTexts pl
    | none =>
      match body.bind Body.data with
      | some d =>
        let t := decodeBodyClean d
        if mimeType.getD "" = "text/plain" ∧ t ≠ "" then [t] else []
      | none => []

end

/-- Spec-side assembled body (§3 MessageRecord): leaf texts joined, each
followed by one newline, the result trimmed once at top level. -/
def specBody (pl : PartList) : String :=
  pyStripS (String.join ((specLeafTexts pl).map (· ++ "\n")))

/-- An attachment-bearing node as the spec identifies it: non-empty
`filename` together with an attachment handle, whatever the mime type. -/
structure AttachmentLeaf where
  filename : String
  attachmentId : String
  mime_type : String
  size : Nat
deriving Repr, DecidableEq

mutual

/-- Spec-side definition, following §4.3 of the design: every node of the
tree, at any depth, that carries both a non-empty `filename` and an
attachment handle, in document order. -/
def allAttachmentNodes : PartList → List AttachmentLeaf
  | .nil => []
  | .cons p rest => partAttachmentNodes p ++ allAttachmentNodes rest

/-- Spec-side attachment nodes of one node and its subtree. -/
def partAttachmentNodes : Part → List AttachmentLeaf
  | .mk mimeType body parts filename =>
    (match body.bind Body.attachmentId with
     | some aid =>
       if filename.getD "" ≠ "" then
         [⟨filename.getD "", aid, mimeType.getD "", (body.bind Body.size).getD 0⟩]
       else []
     | none => []) ++
    (match parts with
     | some pl => allAttachmentNodes pl
     | none => [])

end

/-- One element of the raw payload's flat header list; `none` models an
absent key (the source guards with `if 'name' in header and 'value' in
header`). -/
structure Header where
  name : Option String
  value : Option String
deriving Repr, DecidableEq

/-- The `payload` dictionary of a fetched message: the keys the source
reads. -/
structure Payload where
  headers : Option (List Header)
  parts : Option PartList
  body : Option Body

/-- A fetched message (`msg_data`): the keys the source reads.  `id` is
accessed unconditionally (`msg_data['id']`), so it is not optional. -/
structure MsgData where
  id : String
  threadId : Option String
  snippet : Option String
  labelIds : Option (List String)
  payload : Option Payload

/-- The message record (`email_data` dictionary, source lines 92–103). -/
structure EmailData where
  email_id : String
  thread_id : String
  snippet : String
  label_ids : List String
  «from» : String
  «to» : String
  cc : String
  subject : String
  date_received : Option String
  plain_text : String
deriving Repr, DecidableEq

/-- The lowered `(name, value)` pairs of the header list, in order, skipping
entries missing either key (the dict-comprehension guard). -/
def headerPairs (headers : List Header) : List (String × String) :=
  headers.filterMap fun h =>
    match h.name, h.value with
    | some n, some v => some (pyLower n, v)
    | _, _ => none

/-- `header_dict` lookup (source line 90): Python dict construction keeps the
last value written for a key, so lookup finds the last pair whose lowered
name equals `k`. -/
def header_dict (headers : List Header) (k : String) : Option String :=
  ((headerPairs headers).reverse.find? (fun p => p.1 == k)).map (·.2)

/-- The `plain_text` computation of `process_email` (source lines 105–110):
a payload with `parts` delegates to the tree walker, otherwise a direct
`body.data` is decoded; both results are stripped; a payload with neither
leaves the field `''`. -/
def plain_text_of (payload : Option Payload) : Except Unit String :=
  match payload.bind Payload.parts with
  | some pl => (extract_text_from_parts pl).map pyStripS
  | none =>
    match (payload.bind Payload.body).bind Body.data with
    | some d => (decode_body d).map pyStripS
    | none => .ok ""

/-- The `date_received` computation of `process_email` (source line 101):
`parser.parse(header_dict.get('date', '')).isoformat() if header_dict.get(
'date', '') else None`.  An absent or empty date header yields `None`;
a non-empty one is handed to `dateParse`, whose failure means
`parser.parse` raises (`Except.error`). -/
def date_received_of (dateParse : String → Option String)
    (headers : List Header) : Except Unit (Option String) :=
  let d := (header_dict headers "date").getD ""
  if d = "" then .ok none
  else
    match dateParse d with
    | some iso => .ok (some iso)
    | none => .error ()

/-- `process_email` (source lines 81–116).  `fetched` is the result of the
guarded Gmail fetch: `none` models the caught fetch exception, for which the
source logs and returns `(None, None)` (here `Except.ok none`).  `dateParse`
is the oracle for `dateutil.parser.parse(...).isoformat()`: `none` means the
date string is unparsable, in which case `parser.parse` raises — and no
handler in `process_email` catches it, so the call fails (`Except.error`).
The date header is only parsed when non-empty (`if header_dict.get('date',
'')`).  A `decode_body` exception from the body extraction likewise escapes.
The attachment phase never raises; its log output is dropped here (it is
examined at the `extract_attachments` level). -/
def process_email (dateParse : String → Option String)
    (download : String → String → Option (List Nat))
    (saveOk : String → List Nat → Bool)
    (fetched : Option MsgData) :
    Except Unit (Option (EmailData × List AttachmentRecord)) :=
  match fetched with
  | none => .ok none
  | some msg =>
    let headers := (msg.payload.bind Payload.headers).getD []
    let hd := header_dict headers
    (date_received_of dateParse headers).bind fun date_received =>
      (plain_text_of msg.payload).bind fun plain_text =>
        let attachments :=
          match msg.payload.bind Payload.parts with
          | some pl => (extract_attachments download saveOk pl msg.id).1
          | none => []
        .ok (some
          ({ email_id := msg.id
             thread_id := msg.threadId.getD ""
             snippet := msg.snippet.getD ""
             label_ids := msg.labelIds.getD []
             «from» := (hd "from").getD ""
             «to» := (hd "to").getD ""
             cc := (hd "cc").getD ""
             subject := (hd "subject").getD ""
             date_received := date_received
             plain_text := plain_text }, attachments))

/-! ### Concrete fixtures used by the witnesses and counterexamples -/

/-- Download oracle that always fails (every fetch raises inside
`download_attachment`). -/
def dlFail : String → String → Option (List Nat) := fun _ _ => none

/-- Download oracle that returns three bytes for every attachment. -/
def dlBytes : String → String → Option (List Nat) := fun _ _ => some [1, 2, 3]

/-- Persistence oracle: every write succeeds. -/
def svOk : String → List Nat → Bool := fun _ _ => true

/-- Persistence oracle: every write fails. -/
def svBad : String → List Nat → Bool := fun _ _ => false

/-- Date oracle that can parse nothing. -/
def dpNone : String → Option String := fun _ => none

/-- A message whose date header is present but unparsable. -/
def msgUnparsableDate : MsgData :=
  { id := "m1", threadId := none, snippet := none, labelIds := none,
    payload := some { headers := some [⟨some "Date", some "not a date"⟩],
                      parts := none, body := none } }

/-- A message with no date header at all. -/
def msgNoDate : MsgData :=
  { id := "m1", threadId := none, snippet := none, labelIds := none,
    payload := some { headers := some [⟨some "Subject", some "s"⟩],
                      parts := none, body := none } }

/-- A message with two subject headers of different spelling. -/
def msgTwoSubjects : MsgData :=
  { id := "m1", threadId := none, snippet := none, labelIds := none,
    payload := some { headers := some [⟨some "Subject", some "first"⟩,
                                       ⟨some "SUBJECT", some "second"⟩],
                      parts := none, body := none } }

/-- An attachment leaf: a pdf of declared size 3 with handle `att1`. -/
def attLeafPdf : Part :=
  .mk (some "application/pdf") (some ⟨none, some "att1", some 3⟩) none
    (some "report.pdf")

/-- A one-leaf part list holding `attLeafPdf`. -/
def treeOneAttachment : PartList := .cons attLeafPdf .nil

/-- A plain-text leaf whose blob decodes to `yo`. -/
def childYo : Part := .mk (some "text/plain") (some ⟨some "eW8=", none, none⟩) none none

/-- A degenerate node carrying both its own body data (decoding to `hi`)
and a child part — the case §3's invariant rules out. -/
def partBothDataAndChildren : Part :=
  .mk (some "text/plain") (some ⟨some "aGk=", none, none⟩)
    (some (.cons childYo .nil)) none

/-- The spec's end-to-end example: `text/plain` blob of
`"Hello  world\n\n\n\nBye"`. -/
def helloLeaf : Part :=
  .mk (some "text/plain") (some ⟨some "SGVsbG8gIHdvcmxkCgoKCkJ5ZQ==", none, none⟩)
    none none

/-- The spec's end-to-end example: `text/html` blob of `"<b>Hi</b>"`. -/
def htmlLeaf : Part :=
  .mk (some "text/html") (some ⟨some "PGI-SGk8L2I-", none, none⟩) none none

/-- The spec's end-to-end example tree (§8): one `multipart/alternative`
container holding a `text/plain` leaf and a `text/html` leaf. -/
def exampleTree : PartList :=
  .cons (.mk (some "multipart/alternative") none
    (some (.cons helloLeaf (.cons htmlLeaf .nil))) none) .nil

/-- A second attachment leaf: a png of declared size 5 with handle `attA`. -/
def attLeafPng : Part :=
  .mk (some "image/png") (some ⟨none, some "attA", some 5⟩) none (some "a.png")

/-- A message tree with two attachment leaves. -/
def treeTwoAttachments : PartList := .cons attLeafPng (.cons attLeafPdf .nil)

/-- Download oracle failing exactly on handle `attA`. -/
def dlFailA : String → String → Option (List Nat) :=
  fun _ aid => if aid = "attA" then none else some [1, 2, 3]

/-! ### Claims -/

/-- C1, counterexample.  A raw message payload whose date header is present
but unparsable does **not** yield a record with an absent timestamp: nothing
guards `parser.parse`, so `process_email` raises.  The date header is
present (`some "not a date"`), the oracle deems it unparsable, and the call
errors instead of returning a record. -/
theorem claim_C1_counterexample :
    header_dict [⟨some "Date", some "not a date"⟩] "date" = some "not a date" ∧
    process_email dpNone dlFail svOk (some msgUnparsableDate) = .error () :=
  ⟨rfl, rfl⟩

/-- C2, counterexample.  An attachment whose bytes are retrieved but whose
persistence fails still yields an `AttachmentRecord`: `save_attachment`
swallows the write error after logging it, and `extract_attachments`
appends the record unconditionally.  The claim's "produces no
AttachmentRecord for that leaf" is false. -/
theorem claim_C2_counterexample :
    extract_attachments dlBytes svBad treeOneAttachment "m1"
      = ([⟨"m1", "report.pdf", "application/pdf", 3⟩],
         ["Error saving attachment report.pdf"]) :=
  rfl

/-- C3, counterexample.  The blob `YSAgYg==` is valid URL-safe base64 for
the UTF-8 text `"a  b"`, yet `decode_body` returns `"a b"`: the decoder
applies the normalization pipeline itself (here, space collapsing), so it
does not return the exact original text. -/
theorem claim_C3_counterexample :
    decodeRaw "YSAgYg==" = some "a  b" ∧
    decode_body "YSAgYg==" = .ok "a b" ∧ ("a b" : String) ≠ "a  b" :=
  ⟨rfl, rfl, by decide⟩

/-- C4, counterexample.  A node with both children and its own `bodyData`
uses its own `bodyData` and ignores the children (`if 'data' ...` takes
precedence over `elif 'parts' ...`), so the extracted text of a node with
children is *not* the concatenation of its children's extracted text. -/
theorem claim_C4_counterexample :
    Part.parts partBothDataAndChildren = some (.cons childYo .nil) ∧
    extract_text_from_parts (.cons partBothDataAndChildren .nil) = .ok "hi\n" ∧
    extract_text_from_parts (.cons childYo .nil) = .ok "yo\n" ∧
    ("hi\n" : String) ≠ "yo\n" :=
  ⟨rfl, rfl, rfl, by decide⟩

/-- C5, counterexample.  For a string beginning with two numeric headers a
single pass removes only the first — but a second pass removes the second,
so the composed pipeline is *not* idempotent there, contrary to the claim
that "a second pass of the composed pipeline changes nothing further". -/
theorem claim_C5_counterexample :
    normalizeBody "12 34 x" = "34 x" ∧
    normalizeBody (normalizeBody "12 34 x") = "x" ∧ ("x" : String) ≠ "34 x" :=
  ⟨rfl, rfl, by decide⟩

/-- The record half of `materialize_attachment` ignores the persistence
oracle. -/
theorem materialize_attachment_fst (sv sv' : String → List Nat → Bool)
    (eid fn mime : String) (size : Nat) (o : Option (List Nat)) :
    (materialize_attachment sv eid fn mime size o).1
      = (materialize_attachment sv' eid fn mime size o).1 := by
  cases o with
  | none => rfl
  | some bs => by_cases h : bs = [] <;> simp [materialize_attachment, h]

mutual

/-- The records returned for one part do not depend on the persistence
oracle. -/
theorem extract_attachments_part_fst_sv (dl : String → String → Option (List Nat))
    (sv sv' : String → List Nat → Bool) (eid : String) :
    ∀ p : Part,
      (extract_attachments_part dl sv p eid).1 = (extract_attachments_part dl sv' p eid).1
  | .mk mt body none fn => by
    obtain _ | ⟨bd, ba, bsz⟩ := body
    · rfl
    · obtain _ | aid := ba
      · rfl
      · by_cases h : fn.getD "" ≠ "" <;>
          simp [extract_attachments_part, Option.bind, Body.attachmentId, h,
            materialize_attachment_fst sv sv']
  | .mk mt body (some pl) fn => by
    have ih := extract_attachments_fst_sv dl sv sv' eid pl
    obtain _ | ⟨bd, ba, bsz⟩ := body
    · simpa [extract_attachments_part, Option.bind] using ih
    · obtain _ | aid := ba
      · simpa [extract_attachments_part, Option.bind, Body.attachmentId] using ih
      · by_cases h : fn.getD "" ≠ "" <;>
          simp [extract_attachments_part, Option.bind, Body.attachmentId, h,
            materialize_attachment_fst sv sv', ih]

/-- The records returned by `extract_attachments` do not depend on the
persistence oracle. -/
theorem extract_attachments_fst_sv (dl : String → String → Option (List Nat))
    (sv sv' : String → List Nat → Bool) (eid : String) :
    ∀ pl : PartList,
      (extract_attachments dl sv pl eid).1 = (extract_attachments dl sv' pl eid).1
  | .nil => rfl
  | .cons p rest => by
    have ih1 := extract_attachments_part_fst_sv dl sv sv' eid p
    have ih2 := extract_attachments_fst_sv dl sv sv' eid rest
    simp [extract_attachments, ih1, ih2]

end

/-- C2, amended.  On persistence failure the materializer logs the failure
but still produces the `AttachmentRecord` (the source appends the record
whether or not the save succeeded): the record list returned by
`extract_attachments`, and the whole result of `process_email` (message
record included), are independent of the persistence oracle. -/
theorem claim_C2_amended (dateParse : String → Option String)
    (dl : String → String → Option (List Nat)) (sv sv' : String → List Nat → Bool)
    (fetched : Option MsgData) (pl : PartList) (eid : String) :
    (extract_attachments dl sv pl eid).1 = (extract_attachments dl sv' pl eid).1 ∧
    process_email dateParse dl sv fetched = process_email dateParse dl sv' fetched := by
  refine ⟨extract_attachments_fst_sv dl sv sv' eid pl, ?_⟩
  cases fetched with
  | none => rfl
  | some msg =>
    rcases hpp : msg.payload.bind Payload.parts with _ | pl' <;>
      simp [process_email, hpp, extract_attachments_fst_sv dl sv sv' msg.id]

/-- C4, amended.  Text extraction recurses into a node's children (in
order, contributions concatenated) only when the node has no `bodyData`;
when a node carries both `bodyData` and children, its own `bodyData` is
used (subject to the `text/plain` check) and the children are ignored —
the `if 'data' in body` branch takes precedence over `elif 'parts'`. -/
theorem claim_C4_amended (mt : Option String) (body : Option Body) (pl : PartList)
    (fn : Option String) (rest : PartList) :
    (body.bind Body.data = none →
      extract_text_from_parts (.cons (.mk mt body (some pl) fn) rest)
        = (extract_text_from_parts pl).bind fun t =>
            (extract_text_from_parts rest).map fun r => t ++ r) ∧
    (∀ d, body.bind Body.data = some d →
      extract_text_from_parts (.cons (.mk mt body (some pl) fn) rest)
        = (decode_body d).bind fun bd =>
            (extract_text_from_parts rest).map fun r =>
              (if mt.getD "" = "text/plain" ∧ bd ≠ "" then bd ++ "\n" else "") ++ r) := by
  constructor
  · intro h
    rcases hpl : extract_text_from_parts pl with e | t <;>
      rcases hr : extract_text_from_parts rest with e' | r <;>
        simp only [extract_text_from_parts, extract_text_part, h, hpl, hr,
          Except.bind, Except.map] <;> rfl
  · intro d h
    rcases hdd : decode_body d with e | bd <;>
      rcases hr : extract_text_from_parts rest with e' | r <;>
        simp only [extract_text_from_parts, extract_text_part, h, hdd, hr,
          Except.bind, Except.map] <;> rfl

/-- C4, amended, witness: a childless-data-free container over the `yo`
leaf extracts exactly its children's concatenation. -/
theorem claim_C4_amended_witness :
    extract_text_from_parts (.cons (.mk (some "multipart/mixed") none
        (some (.cons childYo .nil)) none) .nil)
      = (extract_text_from_parts (.cons childYo .nil)).bind fun t =>
          (extract_text_from_parts .nil).map fun r => t ++ r :=
  (claim_C4_amended (some "multipart/mixed") none (.cons childYo .nil) none .nil).1 rfl

/-- C1, amended.  An **absent or empty** date header yields a message
record with an absent timestamp and no exception (provided the body
extraction itself succeeds); it is only a present-but-unparsable date that
makes `process_email` raise. -/
theorem claim_C1_amended (dateParse : String → Option String)
    (dl : String → String → Option (List Nat)) (sv : String → List Nat → Bool)
    (msg : MsgData) (pt : String)
    (hdate : (header_dict ((msg.payload.bind Payload.headers).getD []) "date").getD "" = "")
    (hbody : plain_text_of msg.payload = .ok pt) :
    ∃ ed atts, process_email dateParse dl sv (some msg) = .ok (some (ed, atts)) ∧
      ed.date_received = none ∧ ed.plain_text = pt := by
  have hD : date_received_of dateParse ((msg.payload.bind Payload.headers).getD [])
      = .ok none := by
    simp [date_received_of, hdate]
  simp only [process_email, hD, hbody, Except.bind]
  exact ⟨_, _, rfl, rfl, rfl⟩

/-- C1, amended, witness: a concrete message with no date header. -/
theorem claim_C1_amended_witness :
    ∃ ed atts, process_email dpNone dlFail svOk (some msgNoDate) = .ok (some (ed, atts)) ∧
      ed.date_received = none ∧ ed.plain_text = "" :=
  claim_C1_amended dpNone dlFail svOk msgNoDate "" rfl rfl

/-- Appending a header whose lowered name is `k` makes its value the
result of the lookup for `k` — Python dict construction overwrites, so the
last occurrence wins. -/
theorem header_dict_last (hs : List Header) (n v k : String) (hk : pyLower n = k) :
    header_dict (hs ++ [⟨some n, some v⟩]) k = some v := by
  simp [header_dict, headerPairs, List.filterMap_append, hk]

/-- A lookup for `k` ignores an appended header whose lowered name is not
`k`. -/
theorem header_dict_skip (hs : List Header) (h : Header) (k : String)
    (hk : ∀ n v, h.name = some n → h.value = some v → pyLower n ≠ k) :
    header_dict (hs ++ [h]) k = header_dict hs k := by
  obtain ⟨hn, hv⟩ := h
  obtain _ | n := hn <;> obtain _ | v := hv <;>
    simp [header_dict, headerPairs, List.filterMap_append]
  have := hk n v rfl rfl
  simp [List.find?_cons, this]

/-- The `subject` field of a record produced by `process_email` is exactly
the `header_dict` lookup of `"subject"` (defaulted to `""`). -/
theorem process_email_ok_subject (dp : String → Option String)
    (dl : String → String → Option (List Nat)) (sv : String → List Nat → Bool)
    (msg : MsgData) (ed : EmailData) (atts : List AttachmentRecord)
    (hok : process_email dp dl sv (some msg) = .ok (some (ed, atts))) :
    ed.subject = (header_dict ((msg.payload.bind Payload.headers).getD []) "subject").getD "" := by
  rcases hD : date_received_of dp ((msg.payload.bind Payload.headers).getD []) with e | dr
  · simp [process_email, hD, Except.bind] at hok
  · rcases hP : plain_text_of msg.payload with e' | pt
    · simp [process_email, hD, hP, Except.bind] at hok
    · simp only [process_email, hD, hP, Except.bind] at hok
      rw [Except.ok.injEq, Option.some.injEq, Prod.mk.injEq] at hok
      obtain ⟨h1, h2⟩ := hok
      subst h1
      rfl

/-- C9.  Header lookup is case-insensitive (names are lowered before they
become dictionary keys) and, when the same header name occurs more than
once, the value of the **last** occurrence is the one that reaches the
message record: for any message whose header list ends with a header whose
lowered name is `subject`, the record's subject is that header's value,
whatever came before it. -/
theorem claim_C9_last_wins_case_insensitive (dateParse : String → Option String)
    (dl : String → String → Option (List Nat)) (sv : String → List Nat → Bool)
    (msg : MsgData) (ed : EmailData) (atts : List AttachmentRecord)
    (pay : Payload) (hs : List Header) (n v : String)
    (hpay : msg.payload = some pay) (hhs : pay.headers = some (hs ++ [⟨some n, some v⟩]))
    (hsub : pyLower n = "subject")
    (hok : process_email dateParse dl sv (some msg) = .ok (some (ed, atts))) :
    ed.subject = v := by
  have h := process_email_ok_subject dateParse dl sv msg ed atts hok
  rw [hpay] at h
  simp only [Option.bind, hhs, Option.getD] at h
  rw [header_dict_last hs n v "subject" hsub] at h
  simpa using h

/-- C9, witness: a message carrying `Subject: first` then `SUBJECT: second`
yields a record whose subject is `second`. -/
theorem claim_C9_witness : GmailFetch.EmailData.subject
    { email_id := "m1", thread_id := "", snippet := "", label_ids := [],
      «from» := "", «to» := "", cc := "", subject := "second",
      date_received := none, plain_text := "" } = "second" :=
  claim_C9_last_wins_case_insensitive dpNone dlFail svOk msgTwoSubjects _ []
    { headers := some [⟨some "Subject", some "first"⟩, ⟨some "SUBJECT", some "second"⟩],
      parts := none, body := none }
    [⟨some "Subject", some "first"⟩] "SUBJECT" "second" rfl rfl rfl rfl

mutual

/-- On a well-formed node, the records produced for its subtree are exactly
the spec-identified attachment nodes filtered by download success with
non-empty content. -/
theorem extract_attachments_part_fst_spec (dl : String → String → Option (List Nat))
    (sv : String → List Nat → Bool) (eid : String) :
    ∀ p : Part, wellFormedPart p = true →
      (extract_attachments_part dl sv p eid).1
        = (partAttachmentNodes p).filterMap fun a =>
            (dl eid a.attachmentId).bind fun bs =>
              if bs = [] then none
              else some ⟨eid, a.filename, a.mime_type, a.size⟩
  | .mk mt body (some pl) fn => fun hwf => by
    have ih := extract_attachments_fst_spec dl sv eid pl
    simp only [wellFormedPart, Bool.and_eq_true, decide_eq_true_eq,
      Option.isNone_iff_eq_none] at hwf
    obtain ⟨⟨⟨hbd, hba⟩, hfn⟩, hpl⟩ := hwf
    simp [extract_attachments_part, partAttachmentNodes, hba, ih hpl]
  | .mk mt body none fn => fun _ => by
    rcases hba : body.bind Body.attachmentId with _ | aid
    · simp [extract_attachments_part, partAttachmentNodes, hba]
    · by_cases hfn : fn.getD "" ≠ ""
      · rcases hdl : dl eid aid with _ | bs
        · simp [extract_attachments_part, partAttachmentNodes, materialize_attachment,
            hba, hfn, hdl]
        · by_cases hbs : bs = [] <;>
            simp [extract_attachments_part, partAttachmentNodes, materialize_attachment,
              hba, hfn, hdl, hbs]
      · simp [extract_attachments_part, partAttachmentNodes, hba, hfn]

/-- On a well-formed tree, `extract_attachments` returns exactly the
spec-identified attachment nodes filtered by download success with
non-empty content, in document order. -/
theorem extract_attachments_fst_spec (dl : String → String → Option (List Nat))
    (sv : String → List Nat → Bool) (eid : String) :
    ∀ pl : PartList, wellFormed pl = true →
      (extract_attachments dl sv pl eid).1
        = (allAttachmentNodes pl).filterMap fun a =>
            (dl eid a.attachmentId).bind fun bs =>
              if bs = [] then none
              else some ⟨eid, a.filename, a.mime_type, a.size⟩
  | .nil => fun _ => rfl
  | .cons p rest => fun hwf => by
    rw [wellFormed] at hwf
    simp only [Bool.and_eq_true] at hwf
    have ih1 := extract_attachments_part_fst_spec dl sv eid p hwf.1
    have ih2 := extract_attachments_fst_spec dl sv eid rest hwf.2
    simp [extract_attachments, allAttachmentNodes, ih1, ih2, List.filterMap_append]

end

/-- C7.  On a well-formed tree, when every download succeeds with non-empty
bytes, the materialized records are exactly — one each, in document order —
those for the nodes carrying both a non-empty filename and an attachment
handle, at any nesting depth, independent of mime type (the selection never
consults `mimeType`) and of the persistence oracle. -/
theorem claim_C7_identification (dl : String → String → Option (List Nat))
    (sv : String → List Nat → Bool) (eid : String) (pl : PartList)
    (hwf : wellFormed pl = true)
    (hdl : ∀ aid, ∃ bs, dl eid aid = some bs ∧ bs ≠ []) :
    (extract_attachments dl sv pl eid).1
      = (allAttachmentNodes pl).map fun a => ⟨eid, a.filename, a.mime_type, a.size⟩ := by
  rw [extract_attachments_fst_spec dl sv eid pl hwf]
  induction allAttachmentNodes pl with
  | nil => rfl
  | cons a rest ih =>
    obtain ⟨bs, hbs, hne⟩ := hdl a.attachmentId
    simp [List.filterMap_cons, hbs, hne, ih]

/-- C7, witness: a nested attachment leaf (inside a multipart container) is
selected and materialized. -/
theorem claim_C7_identification_witness :
    (extract_attachments dlBytes svOk
        (.cons (.mk (some "multipart/mixed") none (some treeOneAttachment) none) .nil)
        "m1").1
      = (allAttachmentNodes
          (.cons (.mk (some "multipart/mixed") none (some treeOneAttachment) none) .nil)).map
          fun a => ⟨"m1", a.filename, a.mime_type, a.size⟩ :=
  claim_C7_identification dlBytes svOk "m1" _ rfl
    (fun aid => ⟨[1, 2, 3], rfl, by decide⟩)

/-- The message record half of `process_email` does not depend on the
download or persistence oracles. -/
theorem process_email_fst_irrel (dp : String → Option String)
    (dl dl' : String → String → Option (List Nat)) (sv sv' : String → List Nat → Bool)
    (fetched : Option MsgData) :
    (process_email dp dl sv fetched).map (Option.map Prod.fst)
      = (process_email dp dl' sv' fetched).map (Option.map Prod.fst) := by
  cases fetched with
  | none => rfl
  | some msg =>
    rcases hD : date_received_of dp ((msg.payload.bind Payload.headers).getD []) with e | dr <;>
      rcases hP : plain_text_of msg.payload with e' | pt <;>
        simp [process_email, hD, hP, Except.bind, Except.map]

/-- C8.  In a well-formed message with exactly two attachment leaves, a
failed retrieval for the first still yields the second's record, and the
message record — its assembled body text included — is untouched: it does
not depend on the download oracle at all. -/
theorem claim_C8_failure_isolated (dl dl' : String → String → Option (List Nat))
    (sv sv' : String → List Nat → Bool) (dp : String → Option String)
    (pl : PartList) (eid : String) (a b : AttachmentLeaf) (bs : List Nat)
    (fetched : Option MsgData)
    (hwf : wellFormed pl = true)
    (hnodes : allAttachmentNodes pl = [a, b])
    (hfail : dl eid a.attachmentId = none)
    (hb : dl eid b.attachmentId = some bs) (hbne : bs ≠ []) :
    (extract_attachments dl sv pl eid).1 = [⟨eid, b.filename, b.mime_type, b.size⟩] ∧
    (process_email dp dl sv fetched).map (Option.map Prod.fst)
      = (process_email dp dl' sv' fetched).map (Option.map Prod.fst) := by
  refine ⟨?_, process_email_fst_irrel dp dl dl' sv sv' fetched⟩
  rw [extract_attachments_fst_spec dl sv eid pl hwf, hnodes]
  simp [List.filterMap_cons, hfail, hb, hbne]

/-- `String.join` distributes over list append. -/
theorem string_join_append (l1 l2 : List String) :
    String.join (l1 ++ l2) = String.join l1 ++ String.join l2 := by
  apply String.ext
  simp [String.join_eq]

/-- `String.join` of a singleton. -/
theorem string_join_singleton (s : String) : String.join [s] = s := by
  apply String.ext
  simp [String.join_eq]

/-- Bind on a successful `Except` computation. -/
theorem except_bind_ok {α β ε : Type} (a : α) (f : α → Except ε β) :
    (Except.ok a >>= f) = f a := rfl

/-- Bind on a failed `Except` computation. -/
theorem except_bind_error {α β ε : Type} (e : ε) (f : α → Except ε β) :
    ((Except.error e : Except ε α) >>= f) = Except.error e := rfl

mutual

/-- On a well-formed, cleanly-decoding node, the extracted text is the
join of the spec-identified leaf texts, each followed by a newline. -/
theorem extract_text_part_spec :
    ∀ p : Part, wellFormedPart p = true → decodesCleanPart p = true →
      extract_text_part p = .ok (String.join ((specPartLeafTexts p).map (· ++ "\n")))
  | .mk mt body (some pl) fn => fun hwf hcl => by
    have ih := extract_text_from_parts_spec pl
    simp only [wellFormedPart, Bool.and_eq_true, decide_eq_true_eq,
      Option.isNone_iff_eq_none] at hwf
    obtain ⟨⟨⟨hbd, hba⟩, hfn⟩, hpl⟩ := hwf
    simp only [decodesCleanPart, hbd] at hcl
    simp [extract_text_part, specPartLeafTexts, hbd, ih hpl hcl]
  | .mk mt body none fn => fun _ hcl => by
    rcases hbd : body.bind Body.data with _ | d
    · simp [extract_text_part, specPartLeafTexts, hbd, String.join]
    · simp only [decodesCleanPart, hbd] at hcl
      rcases hdec : decode_body d with e | s
      · rw [hdec] at hcl; exact absurd hcl (by simp)
      · by_cases hc : mt.getD "" = "text/plain" ∧ s ≠ "" <;>
          simp [extract_text_part, specPartLeafTexts, decodeBodyClean, hbd, hdec, hc,
            except_bind_ok, string_join_singleton, String.join]

/-- On a well-formed, cleanly-decoding tree, the extracted text is the join
of the spec-identified leaf texts, each followed by a newline, in document
order. -/
theorem extract_text_from_parts_spec :
    ∀ pl : PartList, wellFormed pl = true → decodesClean pl = true →
      extract_text_from_parts pl = .ok (String.join ((specLeafTexts pl).map (· ++ "\n")))
  | .nil => fun _ _ => rfl
  | .cons p rest => fun hwf hcl => by
    rw [wellFormed] at hwf
    rw [decodesClean] at hcl
    simp only [Bool.and_eq_true] at hwf hcl
    have ih1 := extract_text_part_spec p hwf.1 hcl.1
    have ih2 := extract_text_from_parts_spec rest hwf.2 hcl.2
    simp [extract_text_from_parts, ih1, ih2, except_bind_ok, specLeafTexts,
      string_join_append]

end

/-- C6.  For every acyclic, well-formed content-part tree whose blobs
decode cleanly, the assembled message body (extraction then the top-level
strip that `process_email` applies) equals the concatenation, in
left-to-right document order across arbitrarily nested containers, of each
`text/plain` leaf's decoded-and-normalized non-empty content followed by
one newline, the whole trimmed once at top level; leaves of any other mime
type contribute nothing. -/
theorem claim_C6_body_assembly (pl : PartList)
    (hwf : wellFormed pl = true) (hcl : decodesClean pl = true) :
    (extract_text_from_parts pl).map pyStripS = .ok (specBody pl) := by
  rw [extract_text_from_parts_spec pl hwf hcl]
  rfl

/-- C6, witness: the spec's example tree — a `multipart/alternative` with a
`text/plain` leaf encoding `"Hello  world\n\n\n\nBye"` and a `text/html`
sibling — yields exactly `"Hello world\n\nBye"`. -/
theorem claim_C6_body_assembly_witness :
    (extract_text_from_parts exampleTree).map pyStripS = .ok (specBody exampleTree) ∧
    specBody exampleTree = "Hello world\n\nBye" ∧
    (extract_text_from_parts exampleTree).map pyStripS = .ok "Hello world\n\nBye" :=
  ⟨claim_C6_body_assembly exampleTree rfl rfl, rfl, rfl⟩

/-- C8, witness: two concrete attachment leaves, the first download fails,
the second record is still produced and the message record is unchanged. -/
theorem claim_C8_failure_isolated_witness :
    (extract_attachments dlFailA svOk treeTwoAttachments "m1").1
      = [⟨"m1", "report.pdf", "application/pdf", 3⟩] ∧
    (process_email dpNone dlFailA svOk (some msgNoDate)).map (Option.map Prod.fst)
      = (process_email dpNone dlBytes svOk (some msgNoDate)).map (Option.map Prod.fst) :=
  claim_C8_failure_isolated dlFailA dlBytes svOk svOk dpNone treeTwoAttachments "m1"
    ⟨"a.png", "attA", "image/png", 5⟩ ⟨"report.pdf", "att1", "application/pdf", 3⟩
    [1, 2, 3] (some msgNoDate) rfl rfl rfl rfl (by decide)

/-- C3, amended.  `decode_body` is total and silent on every ASCII blob,
but on success it returns the decoded text **with the normalization
pipeline applied** — the exact original only when the original is already
in normal form: (1) a decodable ASCII blob whose text holds no `&` yields
the normalized text; (2) when that text is moreover its own normal form,
the exact original text; (3) the empty blob yields `""`; (4) an ASCII blob
that fails base64 or UTF-8 decoding yields `""`; (5) no ASCII blob makes
the call raise.  (A blob containing a non-ASCII character instead raises
an uncaught `UnicodeEncodeError`, which is why the ASCII hypothesis
appears; the ampersand-free hypothesis in (1) and (2) keeps the statement
inside the fragment where the named-reference table of the `htmlUnescape`
model is exact.) -/
theorem claim_C3_amended :
    (∀ d t, decodeRaw d = some t → '&' ∉ t.data → d ≠ "" →
      (∀ c ∈ d.data, c.toNat ≤ 127) → decode_body d = .ok (normalizeBody t)) ∧
    (∀ d t, decodeRaw d = some t → '&' ∉ t.data → normalizeBody t = t → d ≠ "" →
      (∀ c ∈ d.data, c.toNat ≤ 127) → decode_body d = .ok t) ∧
    decode_body "" = .ok "" ∧
    (∀ d, decodeRaw d = none → (∀ c ∈ d.data, c.toNat ≤ 127) → decode_body d = .ok "") ∧
    (∀ d, (∀ c ∈ d.data, c.toNat ≤ 127) → ∃ s, decode_body d = .ok s) := by
  have hascii : ∀ d : String, (∀ c ∈ d.data, c.toNat ≤ 127) →
      d.data.any (fun c => 128 ≤ c.toNat) = false := by
    intro d h
    simp only [List.any_eq_false, decide_eq_true_eq]
    intro c hc
    have := h c hc
    omega
  refine ⟨?_, ?_, rfl, ?_, ?_⟩
  · intro d t hraw _ hne hc
    simp [decode_body, hne, hascii d hc, hraw]
  · intro d t hraw _ hnorm hne hc
    simp [decode_body, hne, hascii d hc, hraw, hnorm]
  · intro d hraw hc
    by_cases hne : d = ""
    · simp [decode_body, hne]
    · simp [decode_body, hne, hascii d hc, hraw]
  · intro d hc
    by_cases hne : d = ""
    · exact ⟨"", by simp [decode_body, hne]⟩
    · rcases hraw : decodeRaw d with _ | t
      · exact ⟨"", by simp [decode_body, hne, hascii d hc, hraw]⟩
      · exact ⟨normalizeBody t, by simp [decode_body, hne, hascii d hc, hraw]⟩

/-- C3, amended, witness: the pipeline is applied (`"a  b"` comes back as
`"a b"`), an already-normal text comes back exactly (`"hi"`), and a
bad-padding blob yields `""` without raising. -/
theorem claim_C3_amended_witness :
    decode_body "YSAgYg==" = .ok (normalizeBody "a  b") ∧
    decode_body "aGk=" = .ok "hi" ∧
    decode_body "ab" = .ok "" :=
  ⟨claim_C3_amended.1 "YSAgYg==" "a  b" rfl (by decide) (by decide) (by decide),
   claim_C3_amended.2.1 "aGk=" "hi" rfl (by decide) rfl (by decide) (by decide),
   claim_C3_amended.2.2.2.1 "ab" rfl (by decide)⟩

/-- C10.  An attachment leaf whose download succeeds with zero-length
content produces no record, no save, and no log — `if attachment_data:` is
false for an empty byte string — exactly as if the retrieval had failed. -/
theorem claim_C10_empty_download
    (download download' : String → String → Option (List Nat))
    (saveOk : String → List Nat → Bool) (mt : Option String) (body : Option Body)
    (parts : Option PartList) (fn : Option String) (aid eid : String)
    (hatt : body.bind Body.attachmentId = some aid)
    (hfn : fn.getD "" ≠ "")
    (hempty : download eid aid = some [])
    (hfail : download' eid aid = none) :
    extract_attachments download saveOk (.cons (.mk mt body parts fn) .nil) eid
      = ([], []) ∧
    extract_attachments download saveOk (.cons (.mk mt body parts fn) .nil) eid
      = extract_attachments download' saveOk (.cons (.mk mt body parts fn) .nil) eid := by
  obtain _ | ⟨bd, ba, bsz⟩ := body
  · simp at hatt
  · obtain rfl : ba = some aid := by simpa [Option.bind, Body.attachmentId] using hatt
    cases parts <;>
      simp [extract_attachments, extract_attachments_part, materialize_attachment,
        Option.bind, Body.attachmentId, hfn, hempty, hfail]

/-- C10, witness at a concrete leaf. -/
theorem claim_C10_empty_download_witness :
    extract_attachments (fun _ _ => some []) svOk treeOneAttachment "m1" = ([], []) :=
  (claim_C10_empty_download (fun _ _ => some []) dlFail svOk
    (some "application/pdf") (some ⟨none, some "att1", some 3⟩) none
    (some "report.pdf") "att1" "m1" rfl (by decide) rfl rfl).1


/-! ### Fixpoint analysis of the normalization pipeline (claim C5) -/

theorem htmlUnescapeGo_cons_ne (f : Nat) (c : Char) (rest : List Char) (hc : c ≠ '&') :
    htmlUnescapeGo (f + 1) (c :: rest) = c :: htmlUnescapeGo f rest :=
  htmlUnescapeGo.eq_4 f c rest fun e => hc e

/-- The scan copies a string without `&` unchanged when the fuel covers it. -/
theorem htmlUnescapeGo_no_amp : ∀ (f : Nat) (l : List Char),
    l.length ≤ f → '&' ∉ l → htmlUnescapeGo f l = l
  | f, [] => fun _ _ => by cases f <;> rfl
  | 0, c :: rest => fun h _ => absurd h (by simp)
  | f + 1, c :: rest => fun h hm => by
    have hc : c ≠ '&' := fun e => hm (by simp [e])
    have hrest : '&' ∉ rest := fun hx => hm (List.mem_cons_of_mem c hx)
    rw [htmlUnescapeGo_cons_ne f c rest hc,
      htmlUnescapeGo_no_amp f rest (by simpa using h) hrest]

theorem htmlUnescape_cons_ne (c : Char) (rest : List Char) (hc : c ≠ '&') :
    htmlUnescape (c :: rest) = c :: htmlUnescapeGo rest.length rest := by
  show htmlUnescapeGo (c :: rest).length (c :: rest) = _
  rw [List.length_cons, htmlUnescapeGo_cons_ne rest.length c rest hc]

/-- Rule 1 leaves a string without `&` unchanged (the CPython fast path). -/
theorem htmlUnescape_no_amp (l : List Char) (h : '&' ∉ l) : htmlUnescape l = l :=
  htmlUnescapeGo_no_amp l.length l le_rfl h

theorem normNewlines_cons_ne (c : Char) (rest : List Char) (hc : c ≠ '\r') :
    normNewlines (c :: rest) = c :: normNewlines rest :=
  normNewlines.eq_4 c rest (fun _ e _ => hc e) (fun e => hc e)

/-- Rule 2 leaves a string without `\r` unchanged. -/
theorem normNewlines_fix : ∀ l : List Char, '\r' ∉ l → normNewlines l = l
  | [] => fun _ => rfl
  | c :: rest => fun h => by
    have hc : c ≠ '\r' := fun e => h (by simp [e])
    have hrest : '\r' ∉ rest := fun hm => h (List.mem_cons_of_mem c hm)
    rw [normNewlines_cons_ne c rest hc, normNewlines_fix rest hrest]

/-- Rule 2 produces a string without `\r`. -/
theorem normNewlines_out_no_cr (l : List Char) : '\r' ∉ normNewlines l := by
  induction l using normNewlines.induct with
  | case1 => simp [normNewlines]
  | case2 rest ih => simp [normNewlines, ih]
  | case3 rest h ih =>
    rw [normNewlines.eq_3 rest h]
    simp [ih]
  | case4 c rest h1 h2 ih =>
    rw [normNewlines.eq_4 c rest h1 h2]
    simp [ih]
    exact fun e => h2 e.symm

mutual

theorem noBlankStrict_mono_nl : ∀ l, noBlankStrict l = true → noBlankNl l = true
  | [] => fun _ => rfl
  | c :: rest => fun h => by
    by_cases h1 : c = '\n'
    · simp [noBlankStrict, h1] at h
    · by_cases h2 : pyIsSpace c = true <;>
        simp only [noBlankStrict, noBlankNl, h1, h2, if_true, if_false,
          if_neg, if_pos] at h ⊢ <;> exact h

theorem noBlankNl_mono : ∀ l, noBlankNl l = true → noBlank l = true
  | [] => fun _ => rfl
  | c :: rest => fun h => by
    by_cases h1 : c = '\n'
    · simp only [noBlankNl, noBlank, h1, if_true] at h ⊢
      exact noBlankStrict_mono_nl rest h
    · by_cases h2 : pyIsSpace c = true <;>
        simp only [noBlankNl, noBlank, h1, h2, if_true, if_false, if_neg, if_pos] at h ⊢
      · exact noBlankNl_mono rest (noBlankStrict_mono_nl rest h)
      · exact h

end

theorem noBlank_tail (c : Char) (rest : List Char) (h : noBlank (c :: rest) = true) :
    noBlank rest = true := by
  by_cases h1 : c = '\n'
  · simp only [noBlank, h1, if_true] at h
    exact noBlankNl_mono rest h
  · simp only [noBlank, h1, if_false, if_neg] at h
    exact h

theorem noBlank_dropWhile (p : Char → Bool) :
    ∀ l, noBlank l = true → noBlank (l.dropWhile p) = true
  | [] => fun h => h
  | c :: rest => fun h => by
    rw [List.dropWhile_cons]
    by_cases hp : p c = true
    · rw [if_pos hp]
      exact noBlank_dropWhile p rest (noBlank_tail c rest h)
    · rw [if_neg hp]
      exact h

mutual

theorem noBlank_prefix : ∀ m r : List Char, noBlank (m ++ r) = true → noBlank m = true
  | [], _ => fun _ => rfl
  | c :: m', r => fun h => by
    rw [List.cons_append] at h
    by_cases h1 : c = '\n'
    · simp only [noBlank, h1, if_true] at h ⊢
      exact noBlankNl_prefix m' r h
    · simp only [noBlank, h1, if_false, if_neg] at h ⊢
      exact noBlank_prefix m' r h

theorem noBlankNl_prefix : ∀ m r : List Char, noBlankNl (m ++ r) = true → noBlankNl m = true
  | [], _ => fun _ => rfl
  | c :: m', r => fun h => by
    rw [List.cons_append] at h
    by_cases h1 : c = '\n'
    · simp only [noBlankNl, h1, if_true] at h ⊢
      exact noBlankStrict_prefix m' r h
    · by_cases h2 : pyIsSpace c = true <;>
        simp only [noBlankNl, h1, h2, if_true, if_false, if_neg, if_pos] at h ⊢
      · exact noBlankStrict_prefix m' r h
      · exact noBlank_prefix m' r h

theorem noBlankStrict_prefix : ∀ m r : List Char,
    noBlankStrict (m ++ r) = true → noBlankStrict m = true
  | [], _ => fun _ => rfl
  | c :: m', r => fun h => by
    rw [List.cons_append] at h
    by_cases h1 : c = '\n'
    · simp [noBlankStrict, h1] at h
    · by_cases h2 : pyIsSpace c = true <;>
        simp only [noBlankStrict, h1, h2, if_true, if_false, if_neg, if_pos] at h ⊢
      · exact noBlankStrict_prefix m' r h
      · exact noBlank_prefix m' r h

end

theorem noBlankStrict_wsrun : ∀ q m : List Char,
    (∀ c ∈ q, pyIsSpace c = true ∧ c ≠ '\n') →
    noBlankStrict (q ++ m) = noBlankStrict m
  | [], m => fun _ => rfl
  | c :: q', m => fun h => by
    obtain ⟨hw, hn⟩ := h c (by simp)
    rw [List.cons_append]
    simp only [noBlankStrict, hn, hw, if_true, if_false, if_neg, if_pos]
    exact noBlankStrict_wsrun q' m fun d hd => h d (List.mem_cons_of_mem c hd)

theorem noBlankStrict_wsrun_true (q : List Char)
    (h : ∀ c ∈ q, pyIsSpace c = true ∧ c ≠ '\n') : noBlankStrict q = true := by
  have h2 := noBlankStrict_wsrun q [] h
  rw [List.append_nil] at h2
  rw [h2]
  rfl

theorem noBlankNl_of_wsrun : ∀ q : List Char,
    (∀ c ∈ q, pyIsSpace c = true ∧ c ≠ '\n') → noBlankNl q = true
  | [] => fun _ => rfl
  | c :: q' => fun h => by
    obtain ⟨hw, hn⟩ := h c (by simp)
    simp only [noBlankNl, hn, hw, if_true, if_false, if_neg, if_pos]
    exact noBlankStrict_wsrun_true q' fun d hd => h d (List.mem_cons_of_mem c hd)

theorem noBlankStrict_ws_then (q : List Char) (c : Char) (m : List Char)
    (hq : ∀ d ∈ q, pyIsSpace d = true ∧ d ≠ '\n') (hc : pyIsSpace c = false)
    (hm : noBlank m = true) : noBlankStrict (q ++ c :: m) = true := by
  rw [noBlankStrict_wsrun q (c :: m) hq]
  have hcn : c ≠ '\n' := fun e => by rw [e] at hc; exact absurd hc (by decide)
  simp only [noBlankStrict, hcn, hc, if_false, if_neg]
  exact hm

theorem noBlankNl_ws_then : ∀ q : List Char, ∀ c : Char, ∀ m : List Char,
    (∀ d ∈ q, pyIsSpace d = true ∧ d ≠ '\n') → pyIsSpace c = false →
    noBlank m = true → noBlankNl (q ++ c :: m) = true
  | [], c, m => fun _ hc hm => by
    have hcn : c ≠ '\n' := fun e => by rw [e] at hc; exact absurd hc (by decide)
    simp only [List.nil_append, noBlankNl, hcn, hc, if_false, if_neg]
    exact hm
  | w :: q', c, m => fun hq hc hm => by
    obtain ⟨hw, hn⟩ := hq w (by simp)
    rw [List.cons_append]
    simp only [noBlankNl, hn, hw, if_true, if_false, if_neg, if_pos]
    exact noBlankStrict_ws_then q' c m (fun d hd => hq d (List.mem_cons_of_mem w hd)) hc hm

mutual

/-- When rule 3 has no work to do, `collapseBlank` is the identity. -/
theorem collapseBlank_fix : ∀ l : List Char, noBlank l = true → collapseBlank l = l
  | [] => fun _ => rfl
  | c :: rest => fun h => by
    by_cases h1 : c = '\n'
    · subst h1
      simp only [noBlank, if_true, if_pos] at h
      simp only [collapseBlank, if_true, if_pos]
      exact collapseBlankRun_fix_nl rest h
    · simp only [noBlank, h1, if_false, if_neg] at h
      simp only [collapseBlank, h1, if_false, if_neg]
      rw [collapseBlank_fix rest h]

theorem collapseBlankRun_fix_nl : ∀ rest : List Char, noBlankNl rest = true →
    collapseBlankRun rest false [] = '\n' :: rest
  | [] => fun _ => rfl
  | c :: rest2 => fun h => by
    by_cases h1 : c = '\n'
    · subst h1
      simp only [noBlankNl, if_true, if_pos] at h
      simp only [collapseBlankRun, if_true, if_pos]
      have h3 := collapseBlankRun_fix_strict rest2 h true []
      rw [h3]
      rfl
    · by_cases h2 : pyIsSpace c = true
      · simp only [noBlankNl, h1, h2, if_true, if_false, if_neg, if_pos] at h
        simp only [collapseBlankRun, h1, h2, if_true, if_false, if_neg, if_pos]
        have h3 := collapseBlankRun_fix_strict rest2 h false [c]
        rw [List.nil_append, h3]
        simp
      · simp only [noBlankNl, h1, h2, if_true, if_false, if_neg, if_pos] at h
        simp only [collapseBlankRun, h1, h2, if_true, if_false, if_neg, if_pos]
        rw [collapseBlank_fix rest2 h]
        rfl

theorem collapseBlankRun_fix_strict : ∀ rest : List Char, noBlankStrict rest = true →
    ∀ (nl2 : Bool) (pending : List Char),
    collapseBlankRun rest nl2 pending
      = ('\n' :: (if nl2 then '\n' :: pending else pending)) ++ rest
  | [] => fun _ nl2 pending => by
    simp [collapseBlankRun]
  | c :: rest2 => fun h nl2 pending => by
    by_cases h1 : c = '\n'
    · rw [h1] at h
      simp [noBlankStrict] at h
    · by_cases h2 : pyIsSpace c = true
      · simp only [noBlankStrict, h1, h2, if_true, if_false, if_neg, if_pos] at h
        simp only [collapseBlankRun, h1, h2, if_true, if_false, if_neg, if_pos]
        rw [collapseBlankRun_fix_strict rest2 h nl2 (pending ++ [c])]
        cases nl2 <;> simp
      · simp only [noBlankStrict, h1, h2, if_true, if_false, if_neg, if_pos] at h
        simp only [collapseBlankRun, h1, h2, if_true, if_false, if_neg, if_pos]
        rw [collapseBlank_fix rest2 h]
        cases nl2 <;> simp

end

mutual

/-- Rule 3's output needs no further collapsing. -/
theorem collapseBlank_out : ∀ l : List Char, noBlank (collapseBlank l) = true
  | [] => rfl
  | c :: rest => by
    by_cases h1 : c = '\n'
    · subst h1
      simp only [collapseBlank, if_true, if_pos]
      exact collapseBlankRun_out rest false [] (by simp)
    · simp only [collapseBlank, h1, if_false, if_neg]
      simp only [noBlank, h1, if_false, if_neg]
      exact collapseBlank_out rest

theorem collapseBlankRun_out : ∀ rest : List Char, ∀ (nl2 : Bool) (pending : List Char),
    (∀ c ∈ pending, pyIsSpace c = true ∧ c ≠ '\n') →
    noBlank (collapseBlankRun rest nl2 pending) = true
  | [], nl2, pending => fun hp => by
    simp only [collapseBlankRun]
    cases nl2
    · simp only [Bool.false_eq_true, if_false, if_neg, noBlank, if_true, if_pos]
      exact noBlankNl_of_wsrun pending hp
    · simp only [if_true, if_pos, noBlank, noBlankNl]
      exact noBlankStrict_wsrun_true pending hp
  | c :: rest2, nl2, pending => fun hp => by
    by_cases h1 : c = '\n'
    · subst h1
      simp only [collapseBlankRun, if_true, if_pos]
      exact collapseBlankRun_out rest2 true [] (by simp)
    · by_cases h2 : pyIsSpace c = true
      · simp only [collapseBlankRun, h1, h2, if_true, if_false, if_neg, if_pos]
        refine collapseBlankRun_out rest2 nl2 (pending ++ [c]) ?_
        intro d hd
        rcases List.mem_append.mp hd with hd1 | hd2
        · exact hp d hd1
        · simp at hd2
          subst hd2
          exact ⟨h2, h1⟩
      · simp only [collapseBlankRun, h1, h2, if_true, if_false, if_neg, if_pos]
        have hm := collapseBlank_out rest2
        cases nl2
        · simp only [Bool.false_eq_true, if_false, if_neg, List.cons_append, noBlank,
            if_true, if_pos]
          exact noBlankNl_ws_then pending c (collapseBlank rest2) hp
            (by simpa using h2) hm
        · simp only [if_true, if_pos, List.cons_append, noBlank, noBlankNl]
          exact noBlankStrict_ws_then pending c (collapseBlank rest2) hp
            (by simpa using h2) hm

end

theorem space_ne_nl : (' ' : Char) ≠ '\n' := by decide

mutual

/-- Rule 5 preserves the rule-3 fixpoint invariant (base state). -/
theorem collapseSpaces_noBlank : ∀ l : List Char, ∀ b : Bool,
    noBlank l = true → noBlank (collapseSpacesGo b l) = true
  | [], _ => fun _ => rfl
  | c :: rest, b => fun h => by
    by_cases h1 : c = '\n'
    · subst h1
      simp only [noBlank, if_true, if_pos] at h
      have hns : ('\n' : Char) ≠ ' ' := by decide
      simp only [collapseSpacesGo, hns, if_false, if_neg, noBlank, if_true, if_pos]
      exact collapseSpaces_noBlankNl rest h
    · simp only [noBlank, h1, if_false, if_neg] at h
      by_cases h2 : c = ' '
      · subst h2
        cases b
        · simp only [collapseSpacesGo, if_true, if_pos, Bool.false_eq_true, if_false,
            if_neg, noBlank, space_ne_nl]
          exact collapseSpaces_noBlank rest true h
        · simp only [collapseSpacesGo, if_true, if_pos]
          exact collapseSpaces_noBlank rest true h
      · simp only [collapseSpacesGo, h2, if_false, if_neg, noBlank, h1]
        exact collapseSpaces_noBlank rest false h

theorem collapseSpaces_noBlankNl : ∀ l : List Char,
    noBlankNl l = true → noBlankNl (collapseSpacesGo false l) = true
  | [] => fun _ => rfl
  | c :: rest => fun h => by
    by_cases h1 : c = '\n'
    · subst h1
      simp only [noBlankNl, if_true, if_pos] at h
      have hns : ('\n' : Char) ≠ ' ' := by decide
      simp only [collapseSpacesGo, hns, if_false, if_neg, noBlankNl, if_true, if_pos]
      exact collapseSpaces_noBlankStrict rest false h
    · by_cases h2 : pyIsSpace c = true
      · simp only [noBlankNl, h1, h2, if_true, if_false, if_neg, if_pos] at h
        by_cases h3 : c = ' '
        · subst h3
          simp only [collapseSpacesGo, if_true, if_pos, noBlankNl, space_ne_nl,
            if_false, if_neg, h2, Bool.false_eq_true]
          exact collapseSpaces_noBlankStrict rest true h
        · simp only [collapseSpacesGo, h3, if_false, if_neg, noBlankNl, h1, h2,
            if_true, if_pos]
          exact collapseSpaces_noBlankStrict rest false h
      · simp only [noBlankNl, h1, h2, if_true, if_false, if_neg, if_pos] at h
        have h3 : c ≠ ' ' := fun e => by rw [e] at h2; exact h2 (by decide)
        simp only [collapseSpacesGo, h3, if_false, if_neg, noBlankNl, h1, h2]
        exact collapseSpaces_noBlank rest false h

theorem collapseSpaces_noBlankStrict : ∀ l : List Char, ∀ b : Bool,
    noBlankStrict l = true → noBlankStrict (collapseSpacesGo b l) = true
  | [], _ => fun _ => rfl
  | c :: rest, b => fun h => by
    by_cases h1 : c = '\n'
    · rw [h1] at h
      simp [noBlankStrict] at h
    · by_cases h2 : pyIsSpace c = true
      · simp only [noBlankStrict, h1, h2, if_true, if_false, if_neg, if_pos] at h
        by_cases h3 : c = ' '
        · subst h3
          cases b
          · simp only [collapseSpacesGo, if_true, if_pos, Bool.false_eq_true,
              if_false, if_neg, noBlankStrict, space_ne_nl, h2]
            exact collapseSpaces_noBlankStrict rest true h
          · simp only [collapseSpacesGo, if_true, if_pos]
            exact collapseSpaces_noBlankStrict rest true h
        · simp only [collapseSpacesGo, h3, if_false, if_neg, noBlankStrict, h1, h2,
            if_true, if_pos]
          exact collapseSpaces_noBlankStrict rest false h
      · simp only [noBlankStrict, h1, h2, if_true, if_false, if_neg, if_pos] at h
        have h3 : c ≠ ' ' := fun e => by rw [e] at h2; exact h2 (by decide)
        simp only [collapseSpacesGo, h3, if_false, if_neg, noBlankStrict, h1, h2]
        exact collapseSpaces_noBlank rest false h

end

mutual

/-- Rule 5's output has no two adjacent spaces. -/
theorem collapseSpaces_out : ∀ l : List Char, noTwoSp (collapseSpacesGo false l) = true
  | [] => rfl
  | c :: rest => by
    by_cases h2 : c = ' '
    · subst h2
      simp only [collapseSpacesGo, if_true, if_pos, Bool.false_eq_true, if_false,
        if_neg, noTwoSp]
      exact collapseSpaces_outSp rest
    · simp only [collapseSpacesGo, h2, if_false, if_neg, noTwoSp]
      exact collapseSpaces_out rest

theorem collapseSpaces_outSp : ∀ l : List Char, noTwoSpSp (collapseSpacesGo true l) = true
  | [] => rfl
  | c :: rest => by
    by_cases h2 : c = ' '
    · subst h2
      simp only [collapseSpacesGo, if_true, if_pos]
      exact collapseSpaces_outSp rest
    · simp only [collapseSpacesGo, h2, if_false, if_neg, noTwoSpSp]
      exact collapseSpaces_out rest

end

mutual

/-- When rule 5 has no work to do, `collapseSpaces` is the identity. -/
theorem collapseSpaces_fix : ∀ l : List Char, noTwoSp l = true → collapseSpacesGo false l = l
  | [] => fun _ => rfl
  | c :: rest => fun h => by
    by_cases h2 : c = ' '
    · subst h2
      simp only [noTwoSp, if_true, if_pos] at h
      simp only [collapseSpacesGo, if_true, if_pos, Bool.false_eq_true, if_false, if_neg]
      rw [collapseSpaces_fixSp rest h]
    · simp only [noTwoSp, h2, if_false, if_neg] at h
      simp only [collapseSpacesGo, h2, if_false, if_neg]
      rw [collapseSpaces_fix rest h]

theorem collapseSpaces_fixSp : ∀ l : List Char, noTwoSpSp l = true → collapseSpacesGo true l = l
  | [] => fun _ => rfl
  | c :: rest => fun h => by
    by_cases h2 : c = ' '
    · rw [h2] at h
      simp [noTwoSpSp] at h
    · simp only [noTwoSpSp, h2, if_false, if_neg] at h
      simp only [collapseSpacesGo, h2, if_false, if_neg]
      rw [collapseSpaces_fix rest h]

end

theorem noTwoSpSp_mono : ∀ l : List Char, noTwoSpSp l = true → noTwoSp l = true
  | [] => fun _ => rfl
  | c :: rest => fun h => by
    by_cases h2 : c = ' '
    · rw [h2] at h
      simp [noTwoSpSp] at h
    · simp only [noTwoSpSp, h2, if_false, if_neg] at h
      simp only [noTwoSp, h2, if_false, if_neg]
      exact h

theorem noTwoSp_tail (c : Char) (rest : List Char) (h : noTwoSp (c :: rest) = true) :
    noTwoSp rest = true := by
  by_cases h2 : c = ' '
  · rw [h2] at h
    simp only [noTwoSp, if_true, if_pos] at h
    exact noTwoSpSp_mono rest h
  · simp only [noTwoSp, h2, if_false, if_neg] at h
    exact h

theorem noTwoSp_dropWhile (p : Char → Bool) :
    ∀ l, noTwoSp l = true → noTwoSp (l.dropWhile p) = true
  | [] => fun h => h
  | c :: rest => fun h => by
    rw [List.dropWhile_cons]
    by_cases hp : p c = true
    · rw [if_pos hp]
      exact noTwoSp_dropWhile p rest (noTwoSp_tail c rest h)
    · rw [if_neg hp]
      exact h

theorem collapseSpaces_mem : ∀ l : List Char, ∀ (b : Bool) (c : Char),
    c ∈ collapseSpacesGo b l → c ∈ l
  | [], _, _ => fun h => by simp [collapseSpacesGo] at h
  | d :: rest, b, c => fun h => by
    by_cases h2 : d = ' '
    · subst h2
      cases b
      · simp only [collapseSpacesGo, if_true, if_pos, Bool.false_eq_true, if_false,
          if_neg] at h
        rcases List.mem_cons.mp h with h3 | h3
        · simp [h3]
        · exact List.mem_cons_of_mem _ (collapseSpaces_mem rest true c h3)
      · simp only [collapseSpacesGo, if_true, if_pos] at h
        exact List.mem_cons_of_mem _ (collapseSpaces_mem rest true c h)
    · simp only [collapseSpacesGo, h2, if_false, if_neg] at h
      rcases List.mem_cons.mp h with h3 | h3
      · simp [h3]
      · exact List.mem_cons_of_mem _ (collapseSpaces_mem rest false c h3)

theorem collapseSpaces_head : ∀ l : List Char, (collapseSpacesGo false l).head? = l.head?
  | [] => rfl
  | c :: rest => by
    by_cases h2 : c = ' ' <;>
      simp [collapseSpacesGo, h2]

theorem getLast?_cons_ne_nil {α : Type} (a : α) (l : List α) (h : l ≠ []) :
    (a :: l).getLast? = l.getLast? := by
  cases l with
  | nil => exact absurd rfl h
  | cons y ys => exact List.getLast?_cons_cons

theorem collapseSpaces_last : ∀ l : List Char, ∀ b : Bool,
    (∃ x, l.getLast? = some x ∧ pyIsSpace x = false) →
    collapseSpacesGo b l ≠ [] ∧ (collapseSpacesGo b l).getLast? = l.getLast?
  | [], b => fun h => by
    obtain ⟨x, hx, _⟩ := h
    simp at hx
  | [c], b => fun h => by
    obtain ⟨x, hx, hws⟩ := h
    have hcx : c = x := by simpa using hx
    have hwc : pyIsSpace c = false := by rw [hcx]; exact hws
    have h2 : c ≠ ' ' := fun e => by rw [e] at hwc; exact absurd hwc (by decide)
    cases b <;> simp [collapseSpacesGo, h2]
  | c :: d :: rest, b => fun h => by
    rw [List.getLast?_cons_cons] at h
    by_cases h2 : c = ' '
    · subst h2
      cases b
      · rw [show collapseSpacesGo false (' ' :: d :: rest)
            = ' ' :: collapseSpacesGo true (d :: rest) from rfl]
        obtain ⟨hne, hlast⟩ := collapseSpaces_last (d :: rest) true h
        refine ⟨by simp, ?_⟩
        rw [getLast?_cons_ne_nil _ _ hne, hlast, List.getLast?_cons_cons]
      · rw [show collapseSpacesGo true (' ' :: d :: rest)
            = collapseSpacesGo true (d :: rest) from rfl]
        obtain ⟨hne, hlast⟩ := collapseSpaces_last (d :: rest) true h
        rw [List.getLast?_cons_cons]
        exact ⟨hne, hlast⟩
    · rw [collapseSpacesGo.eq_2, if_neg h2]
      obtain ⟨hne, hlast⟩ := collapseSpaces_last (d :: rest) false h
      refine ⟨by simp, ?_⟩
      rw [getLast?_cons_ne_nil _ _ hne, hlast, List.getLast?_cons_cons]

theorem head_dropWhile_not (p : Char → Bool) :
    ∀ l : List Char, ∀ h : Char, (l.dropWhile p).head? = some h → p h = false
  | [], h => fun hh => by simp at hh
  | c :: rest, h => fun hh => by
    rw [List.dropWhile_cons] at hh
    by_cases hp : p c = true
    · rw [if_pos hp] at hh
      exact head_dropWhile_not p rest h hh
    · rw [if_neg hp] at hh
      simp only [List.head?_cons, Option.some.injEq] at hh
      rw [← hh]
      simpa using hp

theorem dropWhile_mem (p : Char → Bool) (l : List Char) (c : Char)
    (h : c ∈ l.dropWhile p) : c ∈ l :=
  List.Sublist.mem h (List.dropWhile_sublist p)

theorem pyStrip_mem (l : List Char) (c : Char) (h : c ∈ pyStrip l) : c ∈ l := by
  rw [pyStrip] at h
  rw [List.mem_reverse] at h
  have h2 := dropWhile_mem pyIsSpace _ _ h
  rw [List.mem_reverse] at h2
  exact dropWhile_mem pyIsSpace _ _ h2

theorem pyStrip_prefix_decomp (l : List Char) :
    ∃ r, l.dropWhile pyIsSpace = pyStrip l ++ r := by
  refine ⟨((l.dropWhile pyIsSpace).reverse.takeWhile pyIsSpace).reverse, ?_⟩
  rw [pyStrip]
  rw [← List.reverse_append]
  rw [List.takeWhile_append_dropWhile]
  rw [List.reverse_reverse]

/-- Rule 4 preserves the rule-3 fixpoint invariant. -/
theorem pyStrip_noBlank (l : List Char) (h : noBlank l = true) :
    noBlank (pyStrip l) = true := by
  have h1 := noBlank_dropWhile pyIsSpace l h
  obtain ⟨r, hr⟩ := pyStrip_prefix_decomp l
  rw [hr] at h1
  exact noBlank_prefix _ r h1

/-- Rule 4's output carries no whitespace at either end. -/
theorem pyStrip_noWsEnds (l : List Char) : noWsEnds (pyStrip l) = true := by
  rw [noWsEnds, Bool.and_eq_true]
  constructor
  · rw [pyStrip]
    rw [List.head?_reverse]
    cases hgl : ((l.dropWhile pyIsSpace).reverse.dropWhile pyIsSpace).getLast? with
    | none => rfl
    | some x =>
      have hx : pyIsSpace x = false := by
        have hne : (l.dropWhile pyIsSpace).reverse.dropWhile pyIsSpace ≠ [] := by
          intro e
          rw [e] at hgl
          simp at hgl
        have h3 := List.getLast?_append_of_ne_nil
          ((l.dropWhile pyIsSpace).reverse.takeWhile pyIsSpace) hne
        rw [List.takeWhile_append_dropWhile] at h3
        rw [← h3] at hgl
        rw [List.getLast?_reverse] at hgl
        exact head_dropWhile_not pyIsSpace l x hgl
      simp [hx]
  · rw [pyStrip]
    rw [List.getLast?_reverse]
    cases hhd : ((l.dropWhile pyIsSpace).reverse.dropWhile pyIsSpace).head? with
    | none => rfl
    | some x =>
      have hx := head_dropWhile_not pyIsSpace (l.dropWhile pyIsSpace).reverse x hhd
      simp [hx]

/-- When neither end carries whitespace, `strip` is the identity. -/
theorem pyStrip_fix (l : List Char) (h : noWsEnds l = true) : pyStrip l = l := by
  unfold noWsEnds at h
  rw [Bool.and_eq_true] at h
  obtain ⟨hh, hl⟩ := h
  have h1 : l.dropWhile pyIsSpace = l := by
    cases l with
    | nil => rfl
    | cons c rest =>
      simp only [List.head?_cons] at hh
      rw [Bool.not_eq_true'] at hh
      rw [List.dropWhile_cons]
      simp [hh]
  have h2 : l.reverse.dropWhile pyIsSpace = l.reverse := by
    cases hrev : l.reverse with
    | nil => rfl
    | cons c rest =>
      have hc : l.getLast? = some c := by
        rw [← List.head?_reverse, hrev]
        rfl
      rw [hc] at hl
      simp only at hl
      rw [Bool.not_eq_true'] at hl
      rw [List.dropWhile_cons]
      simp [hl]
  rw [pyStrip, h1, h2, List.reverse_reverse]

theorem stripLeadingDigits_cases (l : List Char) :
    stripLeadingDigits l = l ∨
    stripLeadingDigits l = (l.dropWhile pyIsDigit).dropWhile pyIsSpace := by
  unfold stripLeadingDigits
  by_cases h : digitHeaderStart l = true
  · rw [if_pos h]
    right
    rfl
  · rw [if_neg h]
    left
    rfl

theorem stripLeadingDigits_noBlank (l : List Char) (h : noBlank l = true) :
    noBlank (stripLeadingDigits l) = true := by
  rcases stripLeadingDigits_cases l with he | he <;> rw [he]
  · exact h
  · exact noBlank_dropWhile _ _ (noBlank_dropWhile _ _ h)

theorem stripLeadingDigits_noTwoSp (l : List Char) (h : noTwoSp l = true) :
    noTwoSp (stripLeadingDigits l) = true := by
  rcases stripLeadingDigits_cases l with he | he <;> rw [he]
  · exact h
  · exact noTwoSp_dropWhile _ _ (noTwoSp_dropWhile _ _ h)

theorem stripLeadingDigits_mem (l : List Char) (c : Char)
    (h : c ∈ stripLeadingDigits l) : c ∈ l := by
  rcases stripLeadingDigits_cases l with he | he <;> rw [he] at h
  · exact h
  · exact dropWhile_mem _ _ _ (dropWhile_mem _ _ _ h)

theorem getLast?_cons_ne_none {α : Type} : ∀ (c : α) (rest : List α),
    (c :: rest).getLast? ≠ none
  | c, [] => by simp
  | c, d :: rest => by
    rw [List.getLast?_cons_cons]
    exact getLast?_cons_ne_none d rest

theorem getLast?_dropWhile_of_ne_nil (p : Char → Bool) (l : List Char)
    (h : l.dropWhile p ≠ []) : (l.dropWhile p).getLast? = l.getLast? := by
  conv_rhs => rw [← List.takeWhile_append_dropWhile p l]
  exact (List.getLast?_append_of_ne_nil _ h).symm

theorem stripLeadingDigits_noWsEnds (l : List Char) (h : noWsEnds l = true) :
    noWsEnds (stripLeadingDigits l) = true := by
  rcases stripLeadingDigits_cases l with he | he
  · rw [he]
    exact h
  · rw [he]
    unfold noWsEnds at h ⊢
    rw [Bool.and_eq_true] at h ⊢
    obtain ⟨_, hl⟩ := h
    constructor
    · cases hh : ((l.dropWhile pyIsDigit).dropWhile pyIsSpace).head? with
      | none => rfl
      | some xx =>
        have h3 := head_dropWhile_not pyIsSpace _ xx hh
        simp [h3]
    · cases hgl : ((l.dropWhile pyIsDigit).dropWhile pyIsSpace).getLast? with
      | none => rfl
      | some xx =>
        have hne2 : (l.dropWhile pyIsDigit).dropWhile pyIsSpace ≠ [] := by
          intro e
          rw [e] at hgl
          simp at hgl
        have hne1 : l.dropWhile pyIsDigit ≠ [] := by
          intro e
          rw [e] at hne2
          simp at hne2
        rw [getLast?_dropWhile_of_ne_nil pyIsSpace _ hne2,
          getLast?_dropWhile_of_ne_nil pyIsDigit _ hne1] at hgl
        rw [hgl] at hl
        exact hl

/-- Rule 5 preserves clean ends. -/
theorem collapseSpaces_noWsEnds (l : List Char) (h : noWsEnds l = true) :
    noWsEnds (collapseSpacesGo false l) = true := by
  unfold noWsEnds at h ⊢
  rw [Bool.and_eq_true] at h ⊢
  obtain ⟨hh, hl⟩ := h
  constructor
  · rw [collapseSpaces_head l]
    exact hh
  · cases l with
    | nil => rfl
    | cons c rest =>
      cases hgl : (c :: rest).getLast? with
      | none => exact absurd hgl (getLast?_cons_ne_none c rest)
      | some xx =>
        rw [hgl] at hl
        simp only [Bool.not_eq_true'] at hl
        obtain ⟨hne, heq⟩ := collapseSpaces_last (c :: rest) false ⟨xx, hgl, hl⟩
        rw [heq, hgl]
        simp [hl]

mutual

/-- Rule 3 only ever emits newlines or characters of its input. -/
theorem collapseBlank_mem : ∀ l : List Char, ∀ c : Char,
    c ∈ collapseBlank l → c = '\n' ∨ c ∈ l
  | [], c => fun h => by simp [collapseBlank] at h
  | d :: rest, c => fun h => by
    by_cases h1 : d = '\n'
    · subst h1
      simp only [collapseBlank, if_true, if_pos] at h
      rcases collapseBlankRun_mem rest false [] c h with h2 | h2 | h2
      · exact Or.inl h2
      · exact Or.inr (List.mem_cons_of_mem _ h2)
      · simp at h2
    · simp only [collapseBlank, h1, if_false, if_neg] at h
      rcases List.mem_cons.mp h with h2 | h2
      · exact Or.inr (by simp [h2])
      · rcases collapseBlank_mem rest c h2 with h3 | h3
        · exact Or.inl h3
        · exact Or.inr (List.mem_cons_of_mem _ h3)

theorem collapseBlankRun_mem : ∀ rest : List Char, ∀ (nl2 : Bool) (pending : List Char),
    ∀ c : Char, c ∈ collapseBlankRun rest nl2 pending → c = '\n' ∨ c ∈ rest ∨ c ∈ pending
  | [], nl2, pending, c => fun h => by
    simp only [collapseBlankRun] at h
    rcases List.mem_cons.mp h with h2 | h2
    · exact Or.inl h2
    · cases nl2
      · simp only [Bool.false_eq_true, if_false, if_neg] at h2
        exact Or.inr (Or.inr h2)
      · simp only [if_true, if_pos] at h2
        rcases List.mem_cons.mp h2 with h3 | h3
        · exact Or.inl h3
        · exact Or.inr (Or.inr h3)
  | d :: rest2, nl2, pending, c => fun h => by
    by_cases h1 : d = '\n'
    · subst h1
      simp only [collapseBlankRun, if_true, if_pos] at h
      rcases collapseBlankRun_mem rest2 true [] c h with h2 | h2 | h2
      · exact Or.inl h2
      · exact Or.inr (Or.inl (List.mem_cons_of_mem _ h2))
      · simp at h2
    · by_cases h2 : pyIsSpace d = true
      · simp only [collapseBlankRun, h1, h2, if_true, if_false, if_neg, if_pos] at h
        rcases collapseBlankRun_mem rest2 nl2 (pending ++ [d]) c h with h3 | h3 | h3
        · exact Or.inl h3
        · exact Or.inr (Or.inl (List.mem_cons_of_mem _ h3))
        · rcases List.mem_append.mp h3 with h4 | h4
          · exact Or.inr (Or.inr h4)
          · simp only [List.mem_singleton] at h4
            exact Or.inr (Or.inl (by simp [h4]))
      · simp only [collapseBlankRun, h1, h2, if_true, if_false, if_neg, if_pos] at h
        rcases List.mem_append.mp h with h3 | h3
        · rcases List.mem_cons.mp h3 with h4 | h4
          · exact Or.inl h4
          · cases nl2
            · simp only [Bool.false_eq_true, if_false, if_neg] at h4
              exact Or.inr (Or.inr h4)
            · simp only [if_true, if_pos] at h4
              rcases List.mem_cons.mp h4 with h5 | h5
              · exact Or.inl h5
              · exact Or.inr (Or.inr h5)
        · rcases List.mem_cons.mp h3 with h4 | h4
          · exact Or.inr (Or.inl (by simp [h4]))
          · rcases collapseBlank_mem rest2 c h4 with h5 | h5
            · exact Or.inl h5
            · exact Or.inr (Or.inl (List.mem_cons_of_mem _ h5))

end

/-- C5, amended.  The composed normalization pipeline is **not** idempotent
as claimed: the anchored leading-numeric-header rule fires once per pass, so
a string with several numeric headers loses exactly one per pass (second
pass included — see the counterexample), and HTML unescaping can also
re-fire on doubly-escaped entities.  What holds is conditional idempotence:
for every string whose first-pass output contains no ampersand and does not
begin with a numeric header, a second pass changes nothing. -/
theorem claim_C5_amended (x : String)
    (h1 : '&' ∉ (normalizeBody x).data)
    (h2 : digitHeaderStart (normalizeBody x).data = false) :
    normalizeBody (normalizeBody x) = normalizeBody x := by
  have hy : (normalizeBody x).data
      = stripLeadingDigits (collapseSpaces (pyStrip (collapseBlank
          (normNewlines (htmlUnescape x.data))))) := rfl
  have hcr : '\r' ∉ (normalizeBody x).data := by
    rw [hy]
    intro hm
    have hm1 := stripLeadingDigits_mem _ _ hm
    have hm2 := collapseSpaces_mem _ _ _ hm1
    have hm3 := pyStrip_mem _ _ hm2
    rcases collapseBlank_mem _ _ hm3 with he | hm4
    · exact absurd he (by decide)
    · exact normNewlines_out_no_cr _ hm4
  have hnb : noBlank (normalizeBody x).data = true := by
    rw [hy]
    exact stripLeadingDigits_noBlank _
      (collapseSpaces_noBlank _ false (pyStrip_noBlank _ (collapseBlank_out _)))
  have hnt : noTwoSp (normalizeBody x).data = true := by
    rw [hy]
    exact stripLeadingDigits_noTwoSp _ (collapseSpaces_out _)
  have hwe : noWsEnds (normalizeBody x).data = true := by
    rw [hy]
    exact stripLeadingDigits_noWsEnds _ (collapseSpaces_noWsEnds _ (pyStrip_noWsEnds _))
  have f1 : htmlUnescape (normalizeBody x).data = (normalizeBody x).data :=
    htmlUnescape_no_amp _ h1
  have f2 : normNewlines (normalizeBody x).data = (normalizeBody x).data :=
    normNewlines_fix _ hcr
  have f3 : collapseBlank (normalizeBody x).data = (normalizeBody x).data :=
    collapseBlank_fix _ hnb
  have f4 : pyStrip (normalizeBody x).data = (normalizeBody x).data :=
    pyStrip_fix _ hwe
  have f5 : collapseSpaces (normalizeBody x).data = (normalizeBody x).data :=
    collapseSpaces_fix _ hnt
  have f6 : stripLeadingDigits (normalizeBody x).data = (normalizeBody x).data := by
    unfold stripLeadingDigits
    rw [h2]
    simp
  show String.mk (stripLeadingDigits (collapseSpaces (pyStrip (collapseBlank
      (normNewlines (htmlUnescape (normalizeBody x).data)))))) = normalizeBody x
  rw [f1, f2, f3, f4, f5, f6]

/-- C5, amended, witness: a string with one numeric header, doubled spaces
and CRLF blank lines normalizes to a fixpoint of the pipeline. -/
theorem claim_C5_amended_witness :
    normalizeBody (normalizeBody "12  hello\r\n\r\nworld")
      = normalizeBody "12  hello\r\n\r\nworld" :=
  claim_C5_amended "12  hello\r\n\r\nworld" (by decide) (by decide)

end GmailFetch
